import Mathlib

/-!
Verification of the register allocator (`src/cmd/6g/reg.c`) and peephole
optimizer (`src/cmd/8g/peep.c`) of the Go-zh/go.old compiler backend.

Shallow embedding conventions:
* The C type `Bits` (`uint64 b[BITS]`, a bitset over dataflow variable
  indices) is modelled as a single `Nat` used bitwise; the per-word loops
  `for(z=0; z<BITS; z++)` over `|`, `&`, `&~` collapse to `|||`, `&&&`,
  `bitclear` on the whole set.
* Machine integers that matter (32-bit register masks) carry explicit
  `% 2^32` / `&&& 0xffffffff` where the C truncates.
* Code that can call `fatal()` returns `Option`; `none` is the abort.
-/

namespace GoCC

/-! ### Register numbering and bit maps

Modelled from the spec (§4.2 "physical registers are modeled as an
additional fixed bank of pseudo-variables"): the numeric `REG_*` enum
values live in `6.out.h` / `8.out.h`, which are not among the sources;
only the offsets from `REG_AX` (used by `RtoB`, `BtoR`, `doregbits`,
`regtyp`) and the disjointness of the ranges matter, exactly as in the
names array `regname[]` of reg.c (".AX" ".CX" ".DX" ".BX" ".SP" ".BP"
".SI" ".DI" ".R8" … ".R15" ".X0" … ".X15"). -/

def REG_NONE : Nat := 0
def REG_AX : Nat := 16
def REG_CX : Nat := 17
def REG_DX : Nat := 18
def REG_BX : Nat := 19
def REG_SP : Nat := 20
def REG_BP : Nat := 21
def REG_SI : Nat := 22
def REG_DI : Nat := 23
def REG_R15 : Nat := 31
def REG_AL : Nat := 32
def REG_BL : Nat := 35
def REG_R15B : Nat := 47
def REG_AH : Nat := 48
def REG_BH : Nat := 51
def REG_X0 : Nat := 52
def REG_X7 : Nat := 59
def REG_X15 : Nat := 67

/-- `a & ~b` on bitsets (`x &= ~y` in the C).  Written with `&&&`/`^^^`
so that concrete instances evaluate in the kernel. -/
def bitclear (a b : Nat) : Nat := a &&& (a ^^^ b)

/-- reg.c `RtoB`: `if(r < REG_AX || r > REG_R15) return 0; return 1L << (r-REG_AX);` -/
def RtoB (r : Nat) : Nat :=
  if r < REG_AX ∨ r > REG_R15 then 0 else 2 ^ (r - REG_AX)

/-- reg.c `FtoB`: bits 16..31 hold X0..X15. -/
def FtoB (f : Nat) : Nat :=
  if f < REG_X0 ∨ f > REG_X15 then 0 else 2 ^ (f - REG_X0 + 16)

/-- The loop of `bitno`, testing 64 bit positions from the bottom. -/
def bitnoAux : Nat → Nat → Nat
  | 0, _ => 0
  | fuel + 1, b => if b % 2 = 1 then 0 else bitnoAux fuel (b / 2) + 1

/-- Modelled from the spec: `bitno` (gc/bits.c, not among the sources) scans
`for(i=0; i<64; i++) if(b & (1ull<<i)) return i;` — the index of the lowest
set bit; callers guard against `b == 0` (which is `fatal`). -/
def bitno (b : Nat) : Nat := bitnoAux 64 b

/-- reg.c `BtoR`: mask to the low 16 bits, drop BP and R15 under nacl, drop
BP when the frame pointer is in use, then pick the lowest set bit. -/
def BtoR (nacl fp : Bool) (b0 : Nat) : Nat :=
  let b1 := b0 &&& 0xffff
  let b2 :=
    if nacl then
      bitclear b1 (2 ^ (REG_BP - REG_AX) ||| 2 ^ (REG_R15 - REG_AX))
    else if fp then
      bitclear b1 (2 ^ (REG_BP - REG_AX))
    else b1
  if b2 = 0 then 0 else bitno b2 + REG_AX

/-- reg.c `BtoF`: mask to bits 16..31, lowest set bit back to an X register. -/
def BtoF (b0 : Nat) : Nat :=
  let b := b0 &&& 0xFFFF0000
  if b = 0 then 0 else bitno b - 16 + REG_X0

/-! ### Regions and their sort order (reg.c `rcmp`, `regopt` pass 5/6) -/

/-- opt.h `struct Rgn` (the `enter` flow pointer is not needed by the
comparator or the register chooser; `cost`, `varno`, `regno` are). -/
structure Rgn where
  cost : Int
  varno : Int
  regno : Nat
deriving DecidableEq, Repr

/-- reg.c `rcmp`, the qsort comparator over `Rgn`:
`c1 = p2->cost; c2 = p1->cost; if(c1 -= c2) return c1; return p2->varno - p1->varno;` -/
def rcmp (p1 p2 : Rgn) : Int :=
  let c1 := p2.cost - p1.cost
  if c1 ≠ 0 then c1 else p2.varno - p1.varno

/-- C3 counterexample input: two regions of equal cost 5, varno 1 and 2. -/
def rgnLow : Rgn := { cost := 5, varno := 1, regno := 0 }

def rgnHigh : Rgn := { cost := 5, varno := 2, regno := 0 }

/-! ### Operand constants (include/link.h enum, lines 175–195) -/

def TYPE_NONE : Nat := 0
def TYPE_BRANCH : Nat := 5
def TYPE_TEXTSIZE : Nat := 6
def TYPE_MEM : Nat := 7
def TYPE_CONST : Nat := 8
def TYPE_FCONST : Nat := 9
def TYPE_SCONST : Nat := 10
def TYPE_REG : Nat := 11
def TYPE_ADDR : Nat := 12

def NAME_NONE : Nat := 0
def NAME_EXTERN : Nat := 1
def NAME_STATIC : Nat := 2
def NAME_AUTO : Nat := 3
def NAME_PARAM : Nat := 4

/-! Modelled from the spec (§3 "storage-class tag — automatic/local,
parameter, global/extern, or static"; type tags): the `T*` etype and `P*`
storage-class enums live in gc/go.h, which is not among the sources; the
code only compares them for equality / set membership, so any distinct
values serve. -/

def TINT8 : Nat := 1
def TUINT8 : Nat := 2
def TINT16 : Nat := 3
def TUINT16 : Nat := 4
def TINT32 : Nat := 5
def TUINT32 : Nat := 6
def TINT64 : Nat := 7
def TUINT64 : Nat := 8
def TINT : Nat := 9
def TUINT : Nat := 10
def TUINTPTR : Nat := 11
def TBOOL : Nat := 12
def TPTR32 : Nat := 13
def TPTR64 : Nat := 14
def TFLOAT32 : Nat := 15
def TFLOAT64 : Nat := 16
def TFUNC : Nat := 17

def PEXTERN : Nat := 1
def PAUTO : Nat := 2
def PPARAM : Nat := 3
def PPARAMOUT : Nat := 4

/-- Modelled from the spec: `blsh` (gc/bits.c, not among the sources) is
the singleton bitset `{i}`. -/
def blsh (i : Nat) : Nat := 2 ^ i

/-! ### The dataflow variable table (reg.c `mkvar`, claims C4/C5) -/

/-- opt.h/go.h `struct Var`: one tracked (storage node, offset, etype,
width) tuple. `node` is the identity of the storage node (`Node*` compared
by pointer in the C); `addr` non-zero means address-escaped / disabled. -/
structure Var6 where
  offset : Int
  name : Nat
  etype : Nat
  width : Int
  addr : Nat
  node : Nat
deriving DecidableEq, Repr

instance : Inhabited Var6 :=
  ⟨{ offset := 0, name := 0, etype := 0, width := 0, addr := 0, node := 0 }⟩

/-- The orig `Node` of a declaration, as `mkvar` reads it after
`node = node->orig`.  `origIsSelf` is the sanity check
`node->orig != node → fatal`; `symPresent`/`symDotted` model
`node->sym == S || node->sym->name[0] == '.'`. -/
structure GoNodeCore where
  nid : Nat
  origIsSelf : Bool
  symPresent : Bool
  symDotted : Bool
  cls : Nat
  addrtaken : Bool
deriving DecidableEq, Repr

/-- The `Node*` stored in an operand: `opIsName` is `node->op == ONAME`,
`orig` is `node->orig` (`none` = nil). -/
structure GoNodeRef where
  opIsName : Bool
  orig : Option GoNodeCore
deriving DecidableEq, Repr

/-- link.h `Addr` restricted to the fields reg.c `mkvar` reads. -/
structure Addr6 where
  atype : Nat
  aname : Nat
  reg : Nat
  index : Nat
  offset : Int
  width : Int
  etype : Nat
  node : Option GoNodeRef
deriving DecidableEq, Repr

/-- The globals of reg.c that `mkvar` updates: the `var[]` array (with
`nvar = vars.length`), the per-node `node->opt` chains of Var indices
(head = most recently created), and the `externs`/`params`/`ivar`/`ovar`
bitsets.  (`externs` is called `extvars` here.) -/
structure RegOptState where
  vars : List Var6
  opt : Nat → List Nat
  extvars : Nat
  params : Nat
  ivar : Nat
  ovar : Nat
  hasdefer : Bool

/-- Modelled from the spec ("A fixed global cap bounds the number of
distinct `Var`s per function"): `NVAR = BITS * 64` comes from gc/go.h,
which is not among the sources.  None of the claims depend on the value. -/
def NVAR : Nat := 192

/-- reg.c `doregbits`: the dataflow bits of a (possibly partial) register. -/
def doregbits (r : Nat) : Nat :=
  if REG_AX ≤ r ∧ r ≤ REG_R15 then RtoB r
  else if REG_AL ≤ r ∧ r ≤ REG_R15B then RtoB (r - REG_AL + REG_AX)
  else if REG_AH ≤ r ∧ r ≤ REG_BH then RtoB (r - REG_AH + REG_AX)
  else if REG_X0 ≤ r ∧ r ≤ REG_X0 + 15 then FtoB r
  else 0

/-- reg.c `overlap`: do the byte ranges `[o1, o1+w1)` and `[o2, o2+w2)`
intersect? -/
def overlap (o1 : Int) (w1 : Int) (o2 : Int) (w2 : Int) : Bool :=
  decide (o1 + w1 > o2 ∧ o2 + w2 > o1)

/-- The inner marking of reg.c `setaddrs`: disable every Var of one
(storage node, storage class) pair (`v->addr = 2`). -/
def markNodeName (vars : List Var6) (nid n : Nat) : List Var6 :=
  vars.map (fun v => if v.node = nid ∧ v.name = n then { v with addr := 2 } else v)

/-- reg.c `setaddrs`: for each set bit of `bit`, disable all Vars sharing
that Var's storage node and class.  (The C picks the lowest set bit with
`bnum` and clears it per iteration; since marking never changes `node` or
`name`, iterating the indices in order is the same function.) -/
def setaddrs (vars : List Var6) (bit : Nat) : List Var6 :=
  (List.range vars.length).foldl
    (fun vs i =>
      if bit.testBit i then markNodeName vs (vs.getD i default).node (vs.getD i default).name
      else vs)
    vars

/-- The scan loop of reg.c `mkvar` (`for(i=0; i<nvar; i++)`), walking the
Var table at index `i` onward: stop with the index of an exact
(node, name, offset, etype, width) match, and meanwhile disable
(`v->addr = 1`, `flag = 1`) every same-node same-name Var whose byte range
overlaps the new one without matching exactly. -/
def mkvarScan (nid n : Nat) (o : Int) (et : Nat) (w : Int) :
    List Var6 → Nat → Bool → Option Nat × List Var6 × Bool
  | [], _, flag => (none, [], flag)
  | v :: rest, i, flag =>
    if v.node = nid ∧ v.name = n then
      if v.offset = o ∧ v.etype = et ∧ v.width = w then (some i, v :: rest, flag)
      else if overlap v.offset v.width o w then
        let r := mkvarScan nid n o et w rest (i + 1) true
        (r.1, { v with addr := 1 } :: r.2.1, r.2.2)
      else
        let r := mkvarScan nid n o et w rest (i + 1) flag
        (r.1, v :: r.2.1, r.2.2)
    else
      let r := mkvarScan nid n o et w rest (i + 1) flag
      (r.1, v :: r.2.1, r.2.2)

/-- The `TYPE_MEM` path of reg.c `mkvar`, from `switch(a->name)` to the
end.  `none` is `fatal()`; `some (bit, st)` is a normal return (`goto
none` returns the empty bitset). The `debug['w'] > 1` fatal in the
capacity branch is debug-only tracing and is not modelled. -/
def mkvarMem (st : RegOptState) (a : Addr6) : Option (Nat × RegOptState) :=
  if ¬(a.aname = NAME_EXTERN ∨ a.aname = NAME_STATIC ∨
       a.aname = NAME_PARAM ∨ a.aname = NAME_AUTO) then some (0, st)
  else
    let n := a.aname
    match a.node with
    | none => some (0, st)
    | some nd =>
      if ¬ nd.opIsName then some (0, st)
      else
        match nd.orig with
        | none => some (0, st)
        | some node =>
          if ¬ node.origIsSelf then none
          else if ¬ node.symPresent ∨ node.symDotted then some (0, st)
          else
            let et := a.etype
            let o := a.offset
            let w := a.width
            if w < 0 then none
            else
              match mkvarScan node.nid n o et w st.vars 0 false with
              | (some i, vars1, _) => some (blsh i, { st with vars := vars1 })
              | (none, vars1, flag) =>
                if et = 0 ∨ et = TFUNC then some (0, { st with vars := vars1 })
                else if NVAR ≤ vars1.length then
                  let vars2 := vars1.map (fun v =>
                    if v.node = node.nid then { v with addr := 1 } else v)
                  some (0, { st with vars := vars2 })
                else
                  let i := vars1.length
                  let addr0 : Nat := if flag then 1 else 0
                  let addr1 : Nat := if node.addrtaken then 1 else addr0
                  let addr2 : Nat :=
                    if node.cls = PEXTERN ∨ (st.hasdefer ∧ node.cls = PPARAMOUT)
                    then 1 else addr1
                  let v : Var6 := { offset := o, name := n, etype := et, width := w,
                                    addr := addr2, node := node.nid }
                  let bit := blsh i
                  some (bit,
                    { st with
                      vars := vars1 ++ [v]
                      opt := fun m => if m = node.nid then i :: st.opt m else st.opt m
                      extvars := if n = NAME_EXTERN ∨ n = NAME_STATIC
                                 then st.extvars ||| bit else st.extvars
                      params := if n = NAME_PARAM then st.params ||| bit else st.params
                      ivar := if node.cls = PPARAM then st.ivar ||| bit else st.ivar
                      ovar := if node.cls = PPARAMOUT then st.ovar ||| bit else st.ovar })

/-- reg.c `mkvar`.  The result is `(bitset, state, use1-bits)`: the third
component is the `doregbits` contribution the C ORs into `r->use1`
(`r->use1.b[0] |= doregbits(a->index)` plus the default case).  For
`TYPE_ADDR` the C sets `a->type = TYPE_MEM`, recurses once, runs
`setaddrs` on the recursion's bitset and returns the empty set. -/
def mkvar (st : RegOptState) (a : Addr6) : Option (Nat × RegOptState × Nat) :=
  if a.atype = TYPE_NONE then some (0, st, 0)
  else
    let u1 := doregbits a.index
    if a.atype = TYPE_ADDR then
      match mkvarMem st { a with atype := TYPE_MEM } with
      | none => none
      | some (bit, st1) => some (0, { st1 with vars := setaddrs st1.vars bit }, u1)
    else if a.atype = TYPE_MEM then
      match mkvarMem st a with
      | none => none
      | some (bit, st1) => some (bit, st1, u1)
    else
      let regu := doregbits a.reg
      if regu = 0 then some (0, st, u1) else some (regu, st, u1)

/-- regopt pass 1 (reg.c lines 219–230): the `addrs` bitset collects every
Var whose `addr` is non-zero after all `mkvar` calls. -/
def addrsOf (vars : List Var6) : Nat :=
  (List.range vars.length).foldl
    (fun b i => if (vars.getD i default).addr ≠ 0 then b ||| blsh i else b) 0

/-- regopt pass 5 (reg.c lines 359–360): the bits at which a region may be
started, `LOAD(r) & ~(r->act.b[z] | addrs.b[z])` with
`LOAD(r) = ~refbehind & refahead`. -/
def regionStartBits (refbehind refahead act addrs : Nat) : Nat :=
  bitclear (bitclear refahead refbehind) (act ||| addrs)

/-! ### Backward liveness propagation (reg.c `prop`, claims C1/C2) -/

/-- The view of the variable table that `prop` reads at a call:
`var[i].node` (the storage node of Var `i`) and `node->opt` (the chain of
Var indices of one Go variable; `[]` models `opt == nil`, the register
pseudo-variables). -/
structure PropVars where
  nodeOf : Nat → Nat
  optOf : Nat → List Nat

/-- One bit position of the sibling-expansion loop in the `ACALL` case of
reg.c `prop` (lines 838–867).  The C iterates words `z` and bits `i`,
skipping `z*64+i >= nvar`, i.e. exactly the indices below `nvar`: if Var
`j` is live across the call and belongs to a Go variable (non-nil `opt`
chain), turn on every bit of the chain — but, to stay linear, only when
`j` is the chain head or the head's bit is not yet on. -/
def expandStep (V : PropVars) (cal : Nat) (j : Nat) : Nat :=
  if cal.testBit j = false then cal
  else
    match V.optOf (V.nodeOf j) with
    | [] => cal
    | v1 :: rest =>
      if v1 = j ∨ cal.testBit v1 = false then
        (v1 :: rest).foldl (fun c k => c ||| blsh k) cal
      else cal

/-- The whole sibling-expansion loop of the `ACALL` case of `prop`. -/
def propExpandSiblings (V : PropVars) (nvar : Nat) (cal : Nat) : Nat :=
  (List.range nvar).foldl (expandStep V) cal

/-- The `ACALL` (returning call) arm of reg.c `prop` (lines 810–868):
`cal.b[z] |= ref.b[z] | externs.b[z] | ivar.b[z] | r1->act.b[z];
ref.b[z] = 0;` followed by the sibling expansion of `cal`. -/
def propCallCase (V : PropVars) (nvar : Nat) (extvars ivar act ref cal : Nat) :
    Nat × Nat :=
  let cal1 := cal ||| ref ||| extvars ||| ivar ||| act
  (0, propExpandSiblings V nvar cal1)

/-- Which arm of `switch(r1->prog->as)` in `prop` an instruction takes.
`pcall true` is a call for which `noreturn(...)` holds (the C `break`s). -/
inductive PropAs
  | pcall (noret : Bool)
  | ptext
  | pret
  | pother
deriving DecidableEq

/-- The per-node inputs of `prop`'s transfer: `r1->set`, `r1->use1`,
`r1->use2` and `r1->act`. -/
structure PropNode where
  set : Nat
  use1 : Nat
  use2 : Nat
  act : Nat

/-- The `switch` of reg.c `prop` (lines 809–883), mapping incoming
`(ref, cal)` to the pair the generic transfer then consumes. -/
def propSwitch (V : PropVars) (nvar : Nat) (extvars ivar ovar : Nat)
    (a : PropAs) (act ref cal : Nat) : Nat × Nat :=
  match a with
  | .pcall noret =>
    if noret then (ref, cal) else propCallCase V nvar extvars ivar act ref cal
  | .ptext => (0, 0)
  | .pret => (0, extvars ||| ovar)
  | .pother => (ref, cal)

/-- One node of reg.c `prop`: the `switch`, then the generic transfer
(lines 884–890)
`ref.b[z] = (ref.b[z] & ~r1->set.b[z]) | r1->use1.b[z] | r1->use2.b[z];
cal.b[z] &= ~(r1->set.b[z] | r1->use1.b[z] | r1->use2.b[z]);`
producing the node's (refbehind, calbehind). -/
def propTransfer (V : PropVars) (nvar : Nat) (extvars ivar ovar : Nat)
    (a : PropAs) (nd : PropNode) (ref cal : Nat) : Nat × Nat :=
  let rc := propSwitch V nvar extvars ivar ovar a nd.act ref cal
  ((bitclear rc.1 nd.set) ||| nd.use1 ||| nd.use2,
   bitclear rc.2 (nd.set ||| nd.use1 ||| nd.use2))

/-- Every Var of the storage node of Var `j` is in the set `c`. -/
def chainSet (V : PropVars) (c j : Nat) : Prop :=
  ∀ k ∈ V.optOf (V.nodeOf j), c.testBit k = true

/-- Upper-bound invariant for the sibling expansion: every set bit is
either an originally-live bit of `mid` or a sibling of one. -/
def fromMid (V : PropVars) (mid c : Nat) : Prop :=
  ∀ b, c.testBit b = true →
    mid.testBit b = true ∨ ∃ k, mid.testBit k = true ∧ b ∈ V.optOf (V.nodeOf k)

/-- Progress invariant for the sibling expansion with indices `ixs` still
to be processed: every set bit `j` either already has its whole chain set,
or `j` itself is still pending, or the (already set) head of `j`'s chain
is still pending. -/
def pendInv (V : PropVars) (ixs : List Nat) (c : Nat) : Prop :=
  ∀ j, c.testBit j = true →
    chainSet V c j ∨ j ∈ ixs
    ∨ ∃ v1 t, V.optOf (V.nodeOf j) = v1 :: t ∧ v1 ∈ ixs ∧ c.testBit v1 = true

/-- A trivial variable table (no Go variables) and an empty transfer node,
for the C1/C2 counterexamples. -/
def propVarsTrivial : PropVars := { nodeOf := fun _ => 0, optOf := fun _ => [] }

def pnodeZero : PropNode := { set := 0, use1 := 0, use2 := 0, act := 0 }

/-- The variable table of the C1 counterexample: one address-escaped local
(Var 0, storage node 7, `addr = 1`), whose `opt` chain is `[0]`. -/
def c1vars : List Var6 :=
  [{ offset := 0, name := NAME_AUTO, etype := TINT32, width := 4, addr := 1, node := 7 }]

def c1propVars : PropVars :=
  { nodeOf := fun _ => 7, optOf := fun m => if m = 7 then [0] else [] }

/-! ### Register choice for a region (reg.c `paint2`, `allreg`, `BtoR`,
claim C10) -/

/-- reg.c regopt pass 0 (line 156): `regbits = RtoB(REG_SP);` — the seed
set of registers never handed out. -/
def regbits : Nat := RtoB REG_SP

/-- The 32-bit complement `~b` applied to the `uint32` register mask in
`allreg` (`i = BtoR(~b)` / `BtoF(~b)`). -/
def compl32 (b : Nat) : Nat := 0xffffffff ^^^ (b &&& 0xffffffff)

/-- A flow node as reg.c `paint2` reads it: the linear predecessor `p1`,
the successors `s1` (fall-through) and `s2` (branch), the `p2`/`p2link`
predecessor chain, and the `refahead`/`refbehind`/`regu` bit data.  The
mutable `act` bits live in a separate per-node list. -/
structure RNode where
  p1 : Option Nat
  s1 : Option Nat
  s2 : Option Nat
  p2 : List Nat
  refahead : Nat
  refbehind : Nat
  regu : Nat
deriving Repr

instance : Inhabited RNode :=
  ⟨{ p1 := none, s1 := none, s2 := none, p2 := [], refahead := 0,
     refbehind := 0, regu := 0 }⟩

/-- The initial backward walk of `paint2` (`for(;;) { if(!(refbehind&bb))
break; r1 = p1; … r = r1; }`), fuelled because the model allows arbitrary
graphs. -/
def paint2Back (g : List RNode) (bn : Nat) : Nat → Nat → List Nat → Nat
  | 0, r, _ => r
  | fuel + 1, r, acts =>
    let nd := g.getD r default
    if nd.refbehind.testBit bn = false then r
    else
      match nd.p1 with
      | none => r
      | some r1 =>
        if (g.getD r1 default).refahead.testBit bn = false then r
        else if (acts.getD r1 0).testBit bn = false then r
        else paint2Back g bn fuel r1 acts

mutual

/-- reg.c `paint2`: collect the registers used anywhere in the region of
variable bit `bn` entered at node `r`, starting from the seed `regbits`,
and clear the region's `act` bits.  Fuelled (every recursive call steps
the fuel down); running out of fuel returns the bits collected so far,
which keeps every result a superset of `regbits`. -/
def paint2F (g : List RNode) (bn : Nat) : Nat → Nat → List Nat → Nat × List Nat
  | 0, _, acts => (regbits, acts)
  | fuel + 1, r, acts =>
    if (acts.getD r 0).testBit bn = false then (regbits, acts)
    else paint2Loop g bn fuel (paint2Back g bn (fuel + 1) r acts) regbits acts

/-- The main loop of `paint2`: clear `act`, accumulate `regu`, recurse
into the `p2` predecessors, handle `s2`, then follow `s1`. -/
def paint2Loop (g : List RNode) (bn : Nat) : Nat → Nat → Nat → List Nat → Nat × List Nat
  | 0, _, vreg, acts => (vreg, acts)
  | fuel + 1, r, vreg, acts =>
    let nd := g.getD r default
    let acts1 := acts.set r (bitclear (acts.getD r 0) (blsh bn))
    let vreg1 := vreg ||| nd.regu
    let pr :=
      if nd.refbehind.testBit bn then paint2Preds g bn fuel nd.p2 vreg1 acts1
      else (vreg1, acts1)
    if nd.refahead.testBit bn = false then pr
    else paint2S1 g bn fuel nd.s1 (paint2S2 g bn fuel nd.s2 pr)

/-- The `r1 = r->f.s2` step of `paint2`'s main loop. -/
def paint2S2 (g : List RNode) (bn : Nat) :
    Nat → Option Nat → Nat × List Nat → Nat × List Nat
  | _, none, pr => pr
  | fuel, some r1, pr =>
    if (g.getD r1 default).refbehind.testBit bn then
      let res := paint2F g bn fuel r1 pr.2
      (pr.1 ||| res.1, res.2)
    else pr

/-- The `r = r->f.s1` step of `paint2`'s main loop (with its three break
conditions). -/
def paint2S1 (g : List RNode) (bn : Nat) :
    Nat → Option Nat → Nat × List Nat → Nat × List Nat
  | _, none, s2r => s2r
  | fuel, some rs, s2r =>
    if (s2r.2.getD rs 0).testBit bn = false then s2r
    else if (g.getD rs default).refbehind.testBit bn = false then s2r
    else paint2Loop g bn fuel rs s2r.1 s2r.2

/-- The `for(r1 = p2; r1 != R; r1 = r1->p2link)` recursion of `paint2`. -/
def paint2Preds (g : List RNode) (bn : Nat) : Nat → List Nat → Nat → List Nat → Nat × List Nat
  | 0, _, vreg, acts => (vreg, acts)
  | _ + 1, [], vreg, acts => (vreg, acts)
  | fuel + 1, r1 :: rest, vreg, acts =>
    if (g.getD r1 default).refahead.testBit bn then
      let res := paint2F g bn fuel r1 acts
      paint2Preds g bn fuel rest (vreg ||| res.1) res.2
    else paint2Preds g bn fuel rest vreg acts

end

/-- reg.c `allreg`: zero the region's register, then pick the cheapest
free register of the right class out of `~b`; `none` models the
`fatal("unknown etype")` default.  The result pairs the updated region
with the returned register bit mask. -/
def allreg (vars : List Var6) (nacl fp : Bool) (b : Nat) (rg : Rgn) :
    Option (Rgn × Nat) :=
  let v := vars.getD rg.varno.toNat default
  let rg0 := { rg with regno := 0 }
  if v.etype = TINT8 ∨ v.etype = TUINT8 ∨ v.etype = TINT16 ∨ v.etype = TUINT16 ∨
     v.etype = TINT32 ∨ v.etype = TUINT32 ∨ v.etype = TINT64 ∨ v.etype = TUINT64 ∨
     v.etype = TINT ∨ v.etype = TUINT ∨ v.etype = TUINTPTR ∨ v.etype = TBOOL ∨
     v.etype = TPTR32 ∨ v.etype = TPTR64 then
    let i := BtoR nacl fp (compl32 b)
    if i ≠ 0 ∧ rg.cost > 0 then some ({ rg0 with regno := i }, RtoB i)
    else some (rg0, 0)
  else if v.etype = TFLOAT32 ∨ v.etype = TFLOAT64 then
    let i := BtoF (compl32 b)
    if i ≠ 0 ∧ rg.cost > 0 then some ({ rg0 with regno := i }, FtoB i)
    else some (rg0, 0)
  else none

/-! ### The 8g peephole optimizer (src/cmd/8g/peep.c, claims C6–C9)

The 386 peephole pass works on the flow graph built by `flowstart`
(gc/popt.c, not among the sources).  Modelled from the spec (§6 "the flow
graph is the instruction list with fall-through `s1` links and branch
`s2` links"): for the straight-line chains of claims C6–C8 the graph is
the program list itself — `uniqs` of node `i` is `i+1` (or nil at the
end), `uniqp` is `i-1` (nil at node 0), `s2` is nil everywhere — so the
pass is a function on `List Prog8` with positions as node identities
(`excise`/`nopout` replace an instruction in place and keep positions
stable, exactly as in the C).  Claim C9 gets the general graph with `s2`
branch links (`FNode`, `copy1G`) further below. -/

/-! Modelled from the spec: the `A*` opcode numbers live in `8.out.h`,
which is not among the sources; the peephole code only compares opcodes
for equality, so any distinct values serve. -/

def ANOP : Nat := 1
def ALEAL : Nat := 2
def AMOVB : Nat := 3
def AMOVW : Nat := 4
def AMOVL : Nat := 5
def AMOVSS : Nat := 6
def AMOVSD : Nat := 7
def AMOVAPD : Nat := 8
def AMOVBLZX : Nat := 9
def AMOVWLZX : Nat := 10
def AMOVBLSX : Nat := 11
def AMOVWLSX : Nat := 12
def AADDB : Nat := 13
def AADDW : Nat := 14
def AADDL : Nat := 15
def AADCL : Nat := 16
def ASUBB : Nat := 17
def ASUBW : Nat := 18
def ASUBL : Nat := 19
def AINCB : Nat := 20
def AINCW : Nat := 21
def AINCL : Nat := 22
def ADECB : Nat := 23
def ADECW : Nat := 24
def ADECL : Nat := 25
def ANEGB : Nat := 26
def ANEGW : Nat := 27
def ANEGL : Nat := 28
def ANOTB : Nat := 29
def ANOTW : Nat := 30
def ANOTL : Nat := 31
def AMULB : Nat := 32
def AMULW : Nat := 33
def AMULL : Nat := 34
def AIMULB : Nat := 35
def AIMULW : Nat := 36
def AIMULL : Nat := 37
def AANDB : Nat := 38
def AANDW : Nat := 39
def AANDL : Nat := 40
def AORB : Nat := 41
def AORW : Nat := 42
def AORL : Nat := 43
def AXORB : Nat := 44
def AXORW : Nat := 45
def AXORL : Nat := 46
def ASHLB : Nat := 47
def ASHLW : Nat := 48
def ASHLL : Nat := 49
def AJMP : Nat := 50
def ARET : Nat := 51
def ACALL : Nat := 52
def ATEXT : Nat := 53
def AVARDEF : Nat := 54
def AVARKILL : Nat := 55
def ACMPL : Nat := 56

/-! Modelled from the spec (§6 "per-instruction flag table consulted
through `proginfo`"): the `ProgInfo` flag bits and the 8g flag table live
in gc/popt.h and 8g/prog.c, which are not among the sources.  The bits
are distinct powers of two; the rows give each instruction its read /
write / address / carry behaviour exactly as the spec describes the
table (moves read left and write right; arithmetic reads left and
read-modify-writes right and sets the carry; `INC`/`DEC`/`NOT` do not
touch the carry; `ADC` additionally uses the carry; `MUL` implicitly
uses and clobbers AX/DX; calls, jumps and returns kill the carry). -/

def Pseudo : Nat := 1
def Move : Nat := 2
def LeftAddr : Nat := 4
def LeftRead : Nat := 8
def LeftWrite : Nat := 16
def RightAddr : Nat := 32
def RightRead : Nat := 64
def RightWrite : Nat := 128
def SetCarry : Nat := 256
def UseCarry : Nat := 512
def KillCarry : Nat := 1024
def ShiftCX : Nat := 2048
def ImulAxDx : Nat := 4096
def Conv : Nat := 8192
def Call : Nat := 16384
def Jump : Nat := 32768
def Break : Nat := 65536
def SizeB : Nat := 131072
def SizeW : Nat := 262144
def SizeL : Nat := 524288
def SizeQ : Nat := 1048576
def SizeF : Nat := 2097152
def SizeD : Nat := 4194304

def RightRdwr : Nat := RightRead ||| RightWrite

/-- `ProgInfo`: flag word plus implicitly used / set hardware register
masks. -/
structure ProgInfo8 where
  flags : Nat
  reguse : Nat
  regset : Nat
deriving DecidableEq, Repr

def PI8 (f : Nat) : ProgInfo8 := { flags := f, reguse := 0, regset := 0 }

/-- include/link.h `Addr` restricted to the fields peep.c reads:
`type`, `name`, `reg`, `index`, `offset`, `scale`, `sym` (only compared
against nil), `node` (only compared for identity) and `u.dval` (only
compared for equality, so an `Int` stands in for the float64). -/
structure Addr8 where
  atype : Nat := TYPE_NONE
  aname : Nat := NAME_NONE
  reg : Nat := REG_NONE
  index : Nat := REG_NONE
  offset : Int := 0
  scale : Nat := 0
  symPresent : Bool := false
  node : Nat := 0
  dval : Int := 0
deriving DecidableEq, Inhabited, Repr

/-- include/link.h `Prog` restricted to what peep.c reads: the opcode
and the two operands. -/
structure Prog8 where
  as : Nat := 0
  pfrom : Addr8 := {}
  pto : Addr8 := {}
deriving DecidableEq, Inhabited, Repr

/-- The 8g `proginfo` flag table (see the modelling note above). -/
def proginfo8 (p : Prog8) : ProgInfo8 :=
  if p.as = ANOP then PI8 (LeftRead ||| RightWrite)
  else if p.as = ALEAL then PI8 (LeftAddr ||| RightWrite)
  else if p.as = AMOVB then PI8 (SizeB ||| Move ||| LeftRead ||| RightWrite)
  else if p.as = AMOVW then PI8 (SizeW ||| Move ||| LeftRead ||| RightWrite)
  else if p.as = AMOVL then PI8 (SizeL ||| Move ||| LeftRead ||| RightWrite)
  else if p.as = AMOVSS then PI8 (SizeF ||| Move ||| LeftRead ||| RightWrite)
  else if p.as = AMOVSD then PI8 (SizeD ||| Move ||| LeftRead ||| RightWrite)
  else if p.as = AMOVAPD then PI8 (SizeD ||| Move ||| LeftRead ||| RightWrite)
  else if p.as = AMOVBLZX then PI8 (SizeL ||| Conv ||| LeftRead ||| RightWrite)
  else if p.as = AMOVWLZX then PI8 (SizeL ||| Conv ||| LeftRead ||| RightWrite)
  else if p.as = AMOVBLSX then PI8 (SizeL ||| Conv ||| LeftRead ||| RightWrite)
  else if p.as = AMOVWLSX then PI8 (SizeL ||| Conv ||| LeftRead ||| RightWrite)
  else if p.as = AADDB then PI8 (SizeB ||| LeftRead ||| RightRdwr ||| SetCarry)
  else if p.as = AADDW then PI8 (SizeW ||| LeftRead ||| RightRdwr ||| SetCarry)
  else if p.as = AADDL then PI8 (SizeL ||| LeftRead ||| RightRdwr ||| SetCarry)
  else if p.as = AADCL then PI8 (SizeL ||| LeftRead ||| RightRdwr ||| SetCarry ||| UseCarry)
  else if p.as = ASUBB then PI8 (SizeB ||| LeftRead ||| RightRdwr ||| SetCarry)
  else if p.as = ASUBW then PI8 (SizeW ||| LeftRead ||| RightRdwr ||| SetCarry)
  else if p.as = ASUBL then PI8 (SizeL ||| LeftRead ||| RightRdwr ||| SetCarry)
  else if p.as = AINCB then PI8 (SizeB ||| RightRdwr)
  else if p.as = AINCW then PI8 (SizeW ||| RightRdwr)
  else if p.as = AINCL then PI8 (SizeL ||| RightRdwr)
  else if p.as = ADECB then PI8 (SizeB ||| RightRdwr)
  else if p.as = ADECW then PI8 (SizeW ||| RightRdwr)
  else if p.as = ADECL then PI8 (SizeL ||| RightRdwr)
  else if p.as = ANEGB then PI8 (SizeB ||| RightRdwr ||| SetCarry)
  else if p.as = ANEGW then PI8 (SizeW ||| RightRdwr ||| SetCarry)
  else if p.as = ANEGL then PI8 (SizeL ||| RightRdwr ||| SetCarry)
  else if p.as = ANOTB then PI8 (SizeB ||| RightRdwr)
  else if p.as = ANOTW then PI8 (SizeW ||| RightRdwr)
  else if p.as = ANOTL then PI8 (SizeL ||| RightRdwr)
  else if p.as = AMULB then
    { flags := SizeB ||| LeftRead ||| SetCarry,
      reguse := 2 ^ (REG_AX - REG_AX), regset := 2 ^ (REG_AX - REG_AX) ||| 2 ^ (REG_DX - REG_AX) }
  else if p.as = AMULW then
    { flags := SizeW ||| LeftRead ||| SetCarry,
      reguse := 2 ^ (REG_AX - REG_AX), regset := 2 ^ (REG_AX - REG_AX) ||| 2 ^ (REG_DX - REG_AX) }
  else if p.as = AMULL then
    { flags := SizeL ||| LeftRead ||| SetCarry,
      reguse := 2 ^ (REG_AX - REG_AX), regset := 2 ^ (REG_AX - REG_AX) ||| 2 ^ (REG_DX - REG_AX) }
  else if p.as = AIMULB then
    { flags := SizeB ||| LeftRead ||| SetCarry,
      reguse := 2 ^ (REG_AX - REG_AX), regset := 2 ^ (REG_AX - REG_AX) ||| 2 ^ (REG_DX - REG_AX) }
  else if p.as = AIMULW then PI8 (SizeW ||| LeftRead ||| ImulAxDx ||| SetCarry)
  else if p.as = AIMULL then PI8 (SizeL ||| LeftRead ||| ImulAxDx ||| SetCarry)
  else if p.as = AANDB then PI8 (SizeB ||| LeftRead ||| RightRdwr ||| SetCarry)
  else if p.as = AANDW then PI8 (SizeW ||| LeftRead ||| RightRdwr ||| SetCarry)
  else if p.as = AANDL then PI8 (SizeL ||| LeftRead ||| RightRdwr ||| SetCarry)
  else if p.as = AORB then PI8 (SizeB ||| LeftRead ||| RightRdwr ||| SetCarry)
  else if p.as = AORW then PI8 (SizeW ||| LeftRead ||| RightRdwr ||| SetCarry)
  else if p.as = AORL then PI8 (SizeL ||| LeftRead ||| RightRdwr ||| SetCarry)
  else if p.as = AXORB then PI8 (SizeB ||| LeftRead ||| RightRdwr ||| SetCarry)
  else if p.as = AXORW then PI8 (SizeW ||| LeftRead ||| RightRdwr ||| SetCarry)
  else if p.as = AXORL then PI8 (SizeL ||| LeftRead ||| RightRdwr ||| SetCarry)
  else if p.as = ASHLB then PI8 (SizeB ||| LeftRead ||| RightRdwr ||| ShiftCX ||| SetCarry)
  else if p.as = ASHLW then PI8 (SizeW ||| LeftRead ||| RightRdwr ||| ShiftCX ||| SetCarry)
  else if p.as = ASHLL then PI8 (SizeL ||| LeftRead ||| RightRdwr ||| ShiftCX ||| SetCarry)
  else if p.as = ACMPL then PI8 (SizeL ||| LeftRead ||| RightRead ||| SetCarry)
  else if p.as = AJMP then PI8 (Jump ||| Break ||| KillCarry)
  else if p.as = ARET then PI8 (Break ||| KillCarry)
  else if p.as = ACALL then PI8 (RightAddr ||| Call ||| KillCarry)
  else if p.as = ATEXT then PI8 Pseudo
  else if p.as = AVARDEF then PI8 (Pseudo ||| RightWrite)
  else if p.as = AVARKILL then PI8 (Pseudo ||| RightWrite)
  else PI8 0

/-- peep.c `regtyp` (lines 247–251): a general or XMM register operand. -/
def regtyp (a : Addr8) : Bool :=
  decide (a.atype = TYPE_REG ∧
    ((REG_AX ≤ a.reg ∧ a.reg ≤ REG_DI) ∨ (REG_X0 ≤ a.reg ∧ a.reg ≤ REG_X7)))

/-- Modelled from the spec: 8g's `RtoB` (8g/reg.c is not among the
sources; it is the 386 analogue of 6g reg.c `RtoB`, lines 1174–1181,
with the general-register range ending at DI). -/
def RtoB8 (r : Nat) : Nat :=
  if r < REG_AX ∨ r > REG_DI then 0 else 2 ^ (r - REG_AX)

/-- peep.c line 37: `enum { REGEXT = 0 }`. -/
def REGEXT : Nat := 0

/-- Modelled from the spec: 386 has no register-resident argument or
extern registers, so `REGARG < 0` and `exregoffset` is never set. -/
def REGARG : Int := -1

def exregoffset : Int := 0

/-- peep.c `needc` (lines 52–66): walk the program list; carry needed
iff a `UseCarry` instruction appears before any `SetCarry`/`KillCarry`
one. -/
def needc : List Prog8 → Bool
  | [] => false
  | p :: rest =>
    if (proginfo8 p).flags &&& UseCarry ≠ 0 then true
    else if (proginfo8 p).flags &&& (SetCarry ||| KillCarry) ≠ 0 then false
    else needc rest

/-- The all-zero operand, `zprog.from`/`zprog.to`. -/
def azero : Addr8 := {}

/-- Modelled from the spec: `nopout` (gc/popt.c, not among the sources)
rewrites the instruction to `NOP` with both operands cleared; `excise`
is `nopout` plus a statistics counter. -/
def nopout (p : Prog8) : Prog8 := { p with as := ANOP, pfrom := azero, pto := azero }

/-- The body of peep.c `elimshortmov` (lines 260–345) for one
instruction; `rest` is the tail of the program list after it (`p->link`
onward), consulted by `needc`. -/
def elimshortmovStep (p0 : Prog8) (rest : List Prog8) : Prog8 :=
  if regtyp p0.pto then
    let p :=
      if p0.as = AINCB ∨ p0.as = AINCW then { p0 with as := AINCL }
      else if p0.as = ADECB ∨ p0.as = ADECW then { p0 with as := ADECL }
      else if p0.as = ANEGB ∨ p0.as = ANEGW then { p0 with as := ANEGL }
      else if p0.as = ANOTB ∨ p0.as = ANOTW then { p0 with as := ANOTL }
      else p0
    if regtyp p.pfrom ∨ p.pfrom.atype = TYPE_CONST then
      if p.as = AMOVB ∨ p.as = AMOVW then { p with as := AMOVL }
      else if p.as = AADDB ∨ p.as = AADDW then
        if needc rest then p else { p with as := AADDL }
      else if p.as = ASUBB ∨ p.as = ASUBW then
        if needc rest then p else { p with as := ASUBL }
      else if p.as = AMULB ∨ p.as = AMULW then { p with as := AMULL }
      else if p.as = AIMULB ∨ p.as = AIMULW then { p with as := AIMULL }
      else if p.as = AANDB ∨ p.as = AANDW then { p with as := AANDL }
      else if p.as = AORB ∨ p.as = AORW then { p with as := AORL }
      else if p.as = AXORB ∨ p.as = AXORW then { p with as := AXORL }
      else if p.as = ASHLB ∨ p.as = ASHLW then { p with as := ASHLL }
      else p
    else
      if p.as = AMOVB then { p with as := AMOVBLZX }
      else if p.as = AMOVW then { p with as := AMOVWLZX }
      else p
  else p0

/-- peep.c `elimshortmov`: apply the rewrite to every instruction in
flow order (which is program order). -/
def elimshortmov : List Prog8 → List Prog8
  | [] => []
  | p :: rest => elimshortmovStep p rest :: elimshortmov rest

/-- peep.c `copyas` (lines 627–643); the two
`fatal("use of byte register")` guards abort compilation, which the
embedding surfaces as `none`. -/
def copyas (a v : Addr8) : Option Bool :=
  if REG_AL ≤ a.reg ∧ a.reg ≤ REG_BL then none
  else if REG_AL ≤ v.reg ∧ v.reg ≤ REG_BL then none
  else some (
    if a.atype ≠ v.atype ∨ a.aname ≠ v.aname ∨ a.reg ≠ v.reg then false
    else if regtyp v then true
    else if v.atype = TYPE_MEM ∧ (v.aname = NAME_AUTO ∨ v.aname = NAME_PARAM) then
      decide (v.offset = a.offset)
    else false)

/-- peep.c `copyau` (lines 661–674): direct or indirect use. -/
def copyau (a v : Addr8) : Option Bool :=
  match copyas a v with
  | none => none
  | some true => some true
  | some false =>
    if regtyp v then
      if a.atype = TYPE_MEM ∧ a.reg = v.reg then some true
      else if a.index = v.reg then some true
      else some false
    else some false

/-- peep.c `copysub` (lines 680–710): substitute `s` for `v` in `a`
(when `f`), returning the C's failure flag together with the possibly
rewritten operand.  The `return 0` after the memory-base substitution is
commented out in the C, so control falls through to the index check,
and the BP-with-index test compares `a->index` against `TYPE_NONE`
exactly as written. -/
def copysub (a v s : Addr8) (f : Bool) : Option (Nat × Addr8) :=
  match copyas a v with
  | none => none
  | some true =>
    if (REG_AX ≤ s.reg ∧ s.reg ≤ REG_DI) ∨ (REG_X0 ≤ s.reg ∧ s.reg ≤ REG_X7) then
      some (0, if f then { a with reg := s.reg } else a)
    else some (0, a)
  | some false =>
    if regtyp v then
      if a.atype = TYPE_MEM ∧ a.reg = v.reg then
        if s.reg = REG_BP ∧ a.index ≠ TYPE_NONE then some (1, a)
        else
          let a1 := if f then { a with reg := s.reg } else a
          if a1.index = v.reg then some (0, if f then { a1 with index := s.reg } else a1)
          else some (0, a1)
      else if a.index = v.reg then some (0, if f then { a with index := s.reg } else a)
      else some (0, a)
    else some (0, a)

/-- peep.c `copyu` (lines 538–620): usage class of `v` in `p`
(0 missed, 1 used — substituting `s` when given, 2 read-alter-rewrite,
3 set, 4 set and used), together with the possibly rewritten
instruction.  With `s` given the return value is the substitution
failure flag, and substitutions already applied persist even when a
later one fails, as in the C. -/
def copyu (p : Prog8) (v : Addr8) (s : Option Addr8) : Option (Nat × Prog8) :=
  if p.as = AJMP then
    match s with
    | some sv =>
      match copysub p.pto v sv true with
      | none => none
      | some (r, to1) => some (if r ≠ 0 then 1 else 0, { p with pto := to1 })
    | none =>
      match copyau p.pto v with
      | none => none
      | some b => some (if b then 1 else 0, p)
  else if p.as = ARET then
    match s with
    | some _ => some (1, p)
    | none => some (3, p)
  else if p.as = ACALL then
    if REGEXT ≠ 0 ∧ v.atype = TYPE_REG ∧ v.reg ≤ REGEXT ∧ exregoffset < (v.reg : Int) then
      some (2, p)
    else if 0 ≤ REGARG ∧ v.atype = TYPE_REG ∧ (v.reg : Int) = REGARG then some (2, p)
    else if v.atype = p.pfrom.atype ∧ v.reg = p.pfrom.reg then some (2, p)
    else
      match s with
      | some sv =>
        match copysub p.pto v sv true with
        | none => none
        | some (r, to1) => some (if r ≠ 0 then 1 else 0, { p with pto := to1 })
      | none =>
        match copyau p.pto v with
        | none => none
        | some b => some (if b then 4 else 3, p)
  else if p.as = ATEXT then
    if 0 ≤ REGARG ∧ v.atype = TYPE_REG ∧ (v.reg : Int) = REGARG then some (3, p)
    else some (0, p)
  else if p.as = AVARDEF ∨ p.as = AVARKILL then some (0, p)
  else
    let info := proginfo8 p
    if (info.reguse ||| info.regset) &&& RtoB8 v.reg ≠ 0 then some (2, p)
    else
      match (if info.flags &&& LeftAddr ≠ 0 then copyas p.pfrom v else some false) with
      | none => none
      | some true => some (2, p)
      | some false =>
        match (if info.flags &&& (RightRead ||| RightWrite) = RightRead ||| RightWrite then
                 copyas p.pto v else some false) with
        | none => none
        | some true => some (2, p)
        | some false =>
          match (if info.flags &&& RightWrite ≠ 0 then copyas p.pto v else some false) with
          | none => none
          | some true =>
            (match s with
             | some sv =>
               match copysub p.pfrom v sv true with
               | none => none
               | some (r, from1) => some (if r ≠ 0 then 1 else 0, { p with pfrom := from1 })
             | none =>
               match copyau p.pfrom v with
               | none => none
               | some b => some (if b then 4 else 3, p))
          | some false =>
            if info.flags &&&
                (LeftAddr ||| LeftRead ||| LeftWrite ||| RightAddr ||| RightRead ||| RightWrite)
                ≠ 0 then
              match s with
              | some sv =>
                match copysub p.pfrom v sv true with
                | none => none
                | some (r1, from1) =>
                  if r1 ≠ 0 then some (1, { p with pfrom := from1 })
                  else
                    match copysub p.pto v sv true with
                    | none => none
                    | some (r2, to1) =>
                      some (if r2 ≠ 0 then 1 else 0, { p with pfrom := from1, pto := to1 })
              | none =>
                match copyau p.pfrom v with
                | none => none
                | some true => some (1, p)
                | some false =>
                  match copyau p.pto v with
                  | none => none
                  | some b => some (if b then 1 else 0, p)
            else some (0, p)

/-- The `loop:` walk of peep.c `conprop` (lines 712–756): `p0` is the
instruction of the start node `i0`, `r` the current node; `uniqs` is the
next position, and the `r == r0` / `uniqp(r) == nil` guards can never
fire on the straight line but are kept.  Case 3 excises the repeated
instruction only when the whole operand-field chain — including the
`p->from.type == TYPE_FCONST && p->from.u.dval == p0->from.u.dval`
conjunct exactly as written in the C — matches. -/
def conpropLoop (p0 : Prog8) (i0 : Nat) : Nat → Nat → List Prog8 → Option (List Prog8)
  | 0, _, g => some g
  | fuel + 1, r, g =>
    let r1 := r + 1
    if r1 ≥ g.length ∨ r1 = i0 then some g
    else if r1 = 0 then some g
    else
      let p := g.getD r1 default
      match copyu p p0.pto none with
      | none => none
      | some (t, _) =>
        if t = 0 ∨ t = 1 then conpropLoop p0 i0 fuel r1 g
        else if t = 3 then
          if p.as = p0.as ∧ p.pfrom.atype = p0.pfrom.atype ∧
             p.pfrom.reg = p0.pfrom.reg ∧ p.pfrom.node = p0.pfrom.node ∧
             p.pfrom.offset = p0.pfrom.offset ∧ p.pfrom.scale = p0.pfrom.scale ∧
             (p.pfrom.atype = TYPE_FCONST ∧ p.pfrom.dval = p0.pfrom.dval) ∧
             p.pfrom.index = p0.pfrom.index then
            conpropLoop p0 i0 fuel r1 (g.set r1 (nopout p))
          else some g
        else some g

/-- The constant-propagation scan of peep.c `peep` (lines 103–127):
call `conprop` on every `LEAL` with a symbol and no index, and on every
`MOV` of a constant into a register. -/
def conpropScan : Nat → Nat → List Prog8 → Option (List Prog8)
  | 0, _, g => some g
  | fuel + 1, i, g =>
    if i ≥ g.length then some g
    else
      let p := g.getD i default
      if p.as = ALEAL then
        if regtyp p.pto ∧ p.pfrom.symPresent ∧ p.pfrom.index = REG_NONE then
          match conpropLoop p i (g.length + 1) i g with
          | none => none
          | some g1 => conpropScan fuel (i + 1) g1
        else conpropScan fuel (i + 1) g
      else if p.as = AMOVB ∨ p.as = AMOVW ∨ p.as = AMOVL ∨ p.as = AMOVSS ∨ p.as = AMOVSD then
        if regtyp p.pto ∧ (p.pfrom.atype = TYPE_CONST ∨ p.pfrom.atype = TYPE_FCONST) then
          match conpropLoop p i (g.length + 1) i g with
          | none => none
          | some g1 => conpropScan fuel (i + 1) g1
        else conpropScan fuel (i + 1) g
      else conpropScan fuel (i + 1) g

/-- peep.c `copy1` (lines 453–528) on the straight-line chain: the
`for(; r != nil; r = r->s1)` walk from position `i`.  On the straight
line `uniqp(r) == nil` only at position 0, `r->s2` is always nil, and
the `active`/`gactive` entry guard can never fire (each query starts a
fresh generation and the walk never revisits a position), so both are
omitted here; claim C9's `copy1G` has them.  Returns the C's truth
value together with the instruction list after substitutions — which
persist even when the walk later fails, as in the C. -/
def copy1 (v1 v2 : Addr8) : Nat → Nat → Bool → List Prog8 → Option (Bool × List Prog8)
  | 0, _, _, g => some (true, g)
  | fuel + 1, i, f0, g =>
    if i ≥ g.length then some (true, g)
    else
      let p := g.getD i default
      let f := if ¬f0 ∧ i = 0 then true else f0
      match copyu p v2 none with
      | none => none
      | some (t, _) =>
        if t = 2 then some (false, g)
        else if t = 3 then some (true, g)
        else if t = 1 ∨ t = 4 then
          if f then some (false, g)
          else
            match copyu p v2 (some v1) with
            | none => none
            | some (t2, p1) =>
              let g1 := g.set i p1
              if t2 ≠ 0 then some (false, g1)
              else if t = 4 then some (true, g1)
              else
                match (if ¬f then copyu p1 v1 none else some (0, p1)) with
                | none => none
                | some (t3, _) =>
                  let f2 := if ¬f ∧ (t3 = 2 ∨ t3 = 3 ∨ t3 = 4) then true else f
                  copy1 v1 v2 fuel (i + 1) f2 g1
        else
          match (if ¬f then copyu p v1 none else some (0, p)) with
          | none => none
          | some (t3, _) =>
            let f2 := if ¬f ∧ (t3 = 2 ∨ t3 = 3 ∨ t3 = 4) then true else f
            copy1 v1 v2 fuel (i + 1) f2 g

/-- peep.c `copyprop` (lines 437–451) at position `i` of the chain. -/
def copyprop (g : List Prog8) (i : Nat) : Option (Bool × List Prog8) :=
  let p := g.getD i default
  match copyas p.pfrom p.pto with
  | none => none
  | some true => some (true, g)
  | some false => copy1 p.pfrom p.pto (g.length + 1) (i + 1) false g

/-- The backward scan of peep.c `subprop` (lines 377–399): from
`uniqp(r0) = i0 - 1` down, stopping at a `Move` of full width into
`v1`'s register (`some j`, the `gotit` target) or at any of the abort
conditions (`none` result value).  All `copysub` probes here have
`f = 0`, so the program is not changed. -/
def subpropLoop (v1 v2 : Addr8) (g : List Prog8) : Nat → Nat → Option (Option Nat)
  | 0, _ => some none
  | fuel + 1, i =>
    if i + 1 ≥ g.length then some none
    else
      let p := g.getD i default
      if p.as = AVARDEF ∨ p.as = AVARKILL then
        (if i = 0 then some none else subpropLoop v1 v2 g fuel (i - 1))
      else
        let info := proginfo8 p
        if info.flags &&& Call ≠ 0 then some none
        else if info.reguse ||| info.regset ≠ 0 then some none
        else if info.flags &&& Move ≠ 0 ∧
                info.flags &&& (SizeL ||| SizeQ ||| SizeF ||| SizeD) ≠ 0 ∧
                p.pto.atype = v1.atype ∧ p.pto.reg = v1.reg then
          some (some i)
        else
          match copyau p.pfrom v2 with
          | none => none
          | some true => some none
          | some false =>
            match copyau p.pto v2 with
            | none => none
            | some true => some none
            | some false =>
              match copysub p.pfrom v1 v2 false with
              | none => none
              | some (s1, _) =>
                if s1 ≠ 0 then some none
                else
                  match copysub p.pto v1 v2 false with
                  | none => none
                  | some (s2, _) =>
                    if s2 ≠ 0 then some none
                    else if i = 0 then some none
                    else subpropLoop v1 v2 g fuel (i - 1)

/-- The forward rewrite of peep.c `subprop`'s `gotit` path (lines
410–416): substitute `v2` for `v1` in both operands of every
instruction strictly between the found move and `r0`. -/
def subpropFwd (v1 v2 : Addr8) : Nat → Nat → Nat → List Prog8 → Option (List Prog8)
  | 0, _, _, g => some g
  | fuel + 1, j, i0, g =>
    if j = i0 then some g
    else
      let p := g.getD j default
      match copysub p.pfrom v1 v2 true with
      | none => none
      | some (_, from1) =>
        match copysub p.pto v1 v2 true with
        | none => none
        | some (_, to1) =>
          subpropFwd v1 v2 fuel (j + 1) i0 (g.set j { p with pfrom := from1, pto := to1 })

/-- peep.c `subprop` (lines 361–423) at position `i0`: on `gotit`,
rewrite the found move's target, substitute through the
instructions in between, and swap the registers of `r0`'s operands. -/
def subprop (g : List Prog8) (i0 : Nat) : Option (Bool × List Prog8) :=
  let p0 := g.getD i0 default
  let v1 := p0.pfrom
  let v2 := p0.pto
  if ¬ regtyp v1 then some (false, g)
  else if ¬ regtyp v2 then some (false, g)
  else if i0 = 0 then some (false, g)
  else
    match subpropLoop v1 v2 g i0 (i0 - 1) with
    | none => none
    | some none => some (false, g)
    | some (some j) =>
      let pj := g.getD j default
      match copysub pj.pto v1 v2 true with
      | none => none
      | some (_, toj) =>
        match subpropFwd v1 v2 (g.length + 1) (j + 1) i0 (g.set j { pj with pto := toj }) with
        | none => none
        | some g1 =>
          let q := g1.getD i0 default
          some (true, g1.set i0
            { q with pfrom := { q.pfrom with reg := q.pto.reg },
                     pto := { q.pto with reg := q.pfrom.reg } })

/-- peep.c `rnops` (lines 68–85) from position `i`: skip `NOP`s with
cleared operands while a unique successor exists. -/
def rnopsLoop (g : List Prog8) : Nat → Nat → Nat
  | 0, i => i
  | fuel + 1, i =>
    let p := g.getD i default
    if p.as = ANOP ∧ p.pfrom.atype = TYPE_NONE ∧ p.pto.atype = TYPE_NONE then
      if i + 1 ≥ g.length then i else rnopsLoop g fuel (i + 1)
    else i

/-- One scan of the `loop1` body of peep.c `peep` (lines 133–213) from
position `i` with rewrite counter `t`: copy/sub propagation on
register moves (excising the move on success), folding a zero/sign
extension into a following identical one, and rewriting
`ADD`/`SUB` of `$±1` to `INC`/`DEC` when the carry is dead. -/
def loop1Body : Nat → Nat → Nat → List Prog8 → Option (Nat × List Prog8)
  | 0, _, t, g => some (t, g)
  | fuel + 1, i, t, g =>
    if i ≥ g.length then some (t, g)
    else
      let p := g.getD i default
      if p.as = AMOVL ∨ p.as = AMOVSS ∨ p.as = AMOVSD then
        if regtyp p.pto ∧ regtyp p.pfrom then
          match copyprop g i with
          | none => none
          | some (true, g1) => loop1Body fuel (i + 1) (t + 1) (g1.set i (nopout (g1.getD i default)))
          | some (false, g1) =>
            match subprop g1 i with
            | none => none
            | some (false, g2) => loop1Body fuel (i + 1) t g2
            | some (true, g2) =>
              match copyprop g2 i with
              | none => none
              | some (true, g3) =>
                loop1Body fuel (i + 1) (t + 1) (g3.set i (nopout (g3.getD i default)))
              | some (false, g3) => loop1Body fuel (i + 1) t g3
        else loop1Body fuel (i + 1) t g
      else if p.as = AMOVBLZX ∨ p.as = AMOVWLZX ∨ p.as = AMOVBLSX ∨ p.as = AMOVWLSX then
        if regtyp p.pto then
          if i + 1 < g.length then
            let j := rnopsLoop g (g.length + 1) (i + 1)
            let p1 := g.getD j default
            if p.as = p1.as ∧ p.pto.atype = p1.pfrom.atype ∧ p.pto.reg = p1.pfrom.reg then
              loop1Body fuel (i + 1) (t + 1) (g.set j { p1 with as := AMOVL })
            else loop1Body fuel (i + 1) t g
          else loop1Body fuel (i + 1) t g
        else loop1Body fuel (i + 1) t g
      else if p.as = AADDL ∨ p.as = AADDW then
        if p.pfrom.atype ≠ TYPE_CONST ∨ needc (g.drop (i + 1)) then loop1Body fuel (i + 1) t g
        else if p.pfrom.offset = -1 then
          loop1Body fuel (i + 1) t
            (g.set i { p with as := if p.as = AADDL then ADECL else ADECW, pfrom := azero })
        else if p.pfrom.offset = 1 then
          loop1Body fuel (i + 1) t
            (g.set i { p with as := if p.as = AADDL then AINCL else AINCW, pfrom := azero })
        else loop1Body fuel (i + 1) t g
      else if p.as = ASUBL ∨ p.as = ASUBW then
        if p.pfrom.atype ≠ TYPE_CONST ∨ needc (g.drop (i + 1)) then loop1Body fuel (i + 1) t g
        else if p.pfrom.offset = -1 then
          loop1Body fuel (i + 1) t
            (g.set i { p with as := if p.as = ASUBL then AINCL else AINCW, pfrom := azero })
        else if p.pfrom.offset = 1 then
          loop1Body fuel (i + 1) t
            (g.set i { p with as := if p.as = ASUBL then ADECL else ADECW, pfrom := azero })
        else loop1Body fuel (i + 1) t g
      else loop1Body fuel (i + 1) t g

/-- The `loop1` fixpoint of peep.c `peep`: rescan while a scan made
progress (`t != 0`).  The C iterates unboundedly; the embedding carries
fuel for the outer loop. -/
def loop1 : Nat → List Prog8 → Option (List Prog8)
  | 0, g => some g
  | fuel + 1, g =>
    match loop1Body (g.length + 1) 0 0 g with
    | none => none
    | some (t, g1) => if t ≠ 0 then loop1 fuel g1 else some g1

/-- The MOVSD-removal pass of peep.c `peep` (lines 217–228). -/
def movsdToMovapd (g : List Prog8) : List Prog8 :=
  g.map fun p =>
    if p.as = AMOVSD ∧ regtyp p.pfrom ∧ regtyp p.pto then { p with as := AMOVAPD } else p

/-- peep.c `peep` (lines 87–231) on a straight-line chain:
`elimshortmov`, the constant-propagation scan, the `loop1` fixpoint,
then MOVSD removal. -/
def peep (g : List Prog8) : Option (List Prog8) :=
  let g1 := elimshortmov g
  match conpropScan (g1.length + 1) 0 g1 with
  | none => none
  | some g2 =>
    match loop1 (2 * g2.length + 2) g2 with
    | none => none
    | some g3 => some (movsdToMovapd g3)

/-! ### `copy1` on the general flow graph (claim C9)

Modelled from the spec (§6): `flowstart` links every node to its
fall-through successor `s1` (the next instruction, or nil after an
unconditional jump or at the end) and to its branch target `s2`, so
`s1` never points backward while `s2` may — cycles go through `s2`.
A node is `⟨s1, s2⟩`: whether it falls through, and the optional
branch-target position.  `r->active`, compared against the query
generation `gactive`, is one mark bit per node for the current query. -/

structure FNode where
  s1 : Bool := true
  s2 : Option Nat := none
deriving DecidableEq, Inhabited, Repr

/-- The mutable state a `copyprop` query threads: the per-node
`active` marks of the current generation and the instructions. -/
structure CopySt where
  marks : List Bool
  progs : List Prog8
deriving DecidableEq, Inhabited, Repr

/-- `r->s1` of node `i`: the next position, when node `i` falls
through and one exists. -/
def s1succ (nodes : List FNode) (i : Nat) : Option Nat :=
  if (nodes.getD i default).s1 ∧ i + 1 < nodes.length then some (i + 1) else none

/-- Number of predecessor edges of node `i`. -/
def predCount (nodes : List FNode) (i : Nat) : Nat :=
  (List.range nodes.length).foldl
    (fun acc j =>
      acc + (if s1succ nodes j = some i then 1 else 0) +
        (if (nodes.getD j default).s2 = some i then 1 else 0)) 0

/-- `uniqp(r) == nil`: no unique predecessor (none, or more than one). -/
def uniqpNone (nodes : List FNode) (i : Nat) : Bool := decide (predCount nodes i ≠ 1)

/-- peep.c `copy1` (lines 453–528) on the general flow graph.  The
first `Bool` selects the phase: `true` is function entry (the
`r->active == gactive` guard and the marking, lines 459–464), `false`
the `for(; r != nil; r = r->s1)` walk.  Fuel decreases once per phase
step; `none` is fuel exhaustion, `some none` the byte-register abort
from `copyu`, `some (some (b, st))` the C's return value `b` with the
final marks and instructions. -/
def copy1G (nodes : List FNode) (v1 v2 : Addr8) :
    Nat → Bool → Nat → Bool → CopySt → Option (Option (Bool × CopySt))
  | 0, _, _, _, _ => none
  | fuel + 1, true, i, f, st =>
    if st.marks.getD i false then some (some (true, st))
    else copy1G nodes v1 v2 fuel false i f { st with marks := st.marks.set i true }
  | fuel + 1, false, i, f, st =>
    if i ≥ nodes.length then some (some (true, st))
    else
      let p := st.progs.getD i default
      let f1 := if ¬f ∧ uniqpNone nodes i then true else f
      match copyu p v2 none with
      | none => some none
      | some (t, _) =>
        if t = 2 then some (some (false, st))
        else if t = 3 then some (some (true, st))
        else if t = 1 ∨ t = 4 then
          if f1 then some (some (false, st))
          else
            match copyu p v2 (some v1) with
            | none => some none
            | some (t2, p1) =>
              let st1 := { st with progs := st.progs.set i p1 }
              if t2 ≠ 0 then some (some (false, st1))
              else if t = 4 then some (some (true, st1))
              else
                match (if ¬f1 then copyu p1 v1 none else some (0, p1)) with
                | none => some none
                | some (t3, _) =>
                  let f2 := if ¬f1 ∧ (t3 = 2 ∨ t3 = 3 ∨ t3 = 4) then true else f1
                  match (nodes.getD i default).s2 with
                  | some k =>
                    match copy1G nodes v1 v2 fuel true k f2 st1 with
                    | none => none
                    | some none => some none
                    | some (some (ok, st2)) =>
                      if ok then
                        match s1succ nodes i with
                        | none => some (some (true, st2))
                        | some jn => copy1G nodes v1 v2 fuel false jn f2 st2
                      else some (some (false, st2))
                  | none =>
                    match s1succ nodes i with
                    | none => some (some (true, st1))
                    | some jn => copy1G nodes v1 v2 fuel false jn f2 st1
        else
          match (if ¬f1 then copyu p v1 none else some (0, p)) with
          | none => some none
          | some (t3, _) =>
            let f2 := if ¬f1 ∧ (t3 = 2 ∨ t3 = 3 ∨ t3 = 4) then true else f1
            match (nodes.getD i default).s2 with
            | some k =>
              match copy1G nodes v1 v2 fuel true k f2 st with
              | none => none
              | some none => some none
              | some (some (ok, st2)) =>
                if ok then
                  match s1succ nodes i with
                  | none => some (some (true, st2))
                  | some jn => copy1G nodes v1 v2 fuel false jn f2 st2
                else some (some (false, st2))
            | none =>
              match s1succ nodes i with
              | none => some (some (true, st))
              | some jn => copy1G nodes v1 v2 fuel false jn f2 st

/-- Nodes not yet visited this query. -/
def unmarked (marks : List Bool) : Nat := marks.countP (fun b => !b)

/-- Fuel sufficient to enter `copy1G` with at most `m` unvisited nodes. -/
def entryNeed (len m : Nat) : Nat := m * (len + 3) + 2

/-- Fuel sufficient for the walk phase at position `j` with at most `m`
unvisited nodes. -/
def walkNeed (len m j : Nat) : Nat := m * (len + 3) + (len - j) + 2

/-! ### Concrete inputs for the peephole claims -/

/-- A register operand. -/
def areg (r : Nat) : Addr8 := { atype := TYPE_REG, reg := r }

/-- An integer-constant operand `$k`. -/
def aconst (k : Int) : Addr8 := { atype := TYPE_CONST, offset := k }

/-- A float-constant operand `$d` (`dval` stands in for the float64). -/
def afconst (d : Int) : Addr8 := { atype := TYPE_FCONST, dval := d }

/-- A stack-automatic memory operand. -/
def amem (off : Int) : Addr8 :=
  { atype := TYPE_MEM, aname := NAME_AUTO, reg := REG_SP, offset := off }

/-- C6's failing input: `MOVL $5, AX` twice, back to back. -/
def c6input : List Prog8 :=
  [ { as := ATEXT },
    { as := AMOVL, pfrom := aconst 5, pto := areg REG_AX },
    { as := AMOVL, pfrom := aconst 5, pto := areg REG_AX },
    { as := ARET } ]

/-- The float analogue of `c6input`: `MOVSD $5.0, X0` twice. -/
def c6finput : List Prog8 :=
  [ { as := ATEXT },
    { as := AMOVSD, pfrom := afconst 5, pto := areg REG_X0 },
    { as := AMOVSD, pfrom := afconst 5, pto := areg REG_X0 },
    { as := ARET } ]

/-- A chain whose first carry-relevant instruction consumes the carry
(`ADCL BX, AX`). -/
def c7rest : List Prog8 :=
  [ { as := AADCL, pfrom := areg REG_BX, pto := areg REG_AX } ]

/-- `ADDB $1, AX`. -/
def c7addb : Prog8 := { as := AADDB, pfrom := aconst 1, pto := areg REG_AX }

/-- `ADDL $1, AX; ADCL BX, AX`: the INC rewrite of the first
instruction must be suppressed. -/
def c7g : List Prog8 :=
  [ { as := AADDL, pfrom := aconst 1, pto := areg REG_AX },
    { as := AADCL, pfrom := areg REG_BX, pto := areg REG_AX } ]

/-- C8's counterexample chain: the first `peep` run's `subprop` turns
`MOVSD X1, X0` around and rewrites `MOVSD $1.0, X1` into a duplicate
`MOVSD $1.0, X0`, which only the second run's constant propagation can
delete. -/
def c8input : List Prog8 :=
  [ { as := ATEXT },
    { as := AMOVSD, pfrom := afconst 1, pto := areg REG_X0 },
    { as := AMOVSD, pfrom := afconst 1, pto := areg (REG_X0 + 1) },
    { as := AMOVSD, pfrom := areg (REG_X0 + 1), pto := areg REG_X0 },
    { as := AMOVSD, pfrom := afconst 2, pto := areg (REG_X0 + 1) },
    { as := AMOVSD, pfrom := areg REG_X0, pto := amem 8 },
    { as := ARET } ]

/-- C9's witness graph: node 1 branches back to node 0 — a cycle
through `s2`. -/
def c9nodes : List FNode :=
  [ { s1 := true, s2 := none }, { s1 := false, s2 := some 0 } ]

def c9progs : List Prog8 :=
  [ { as := AADDL, pfrom := aconst 2, pto := areg REG_CX }, { as := AJMP } ]

def c9v1 : Addr8 := areg REG_AX

def c9v2 : Addr8 := areg REG_BX

def c9st : CopySt := { marks := [false, false], progs := c9progs }

def c9stMarked : CopySt := { marks := [true, false], progs := c9progs }

/-- Concrete inputs for the C4 witness: a table already at the cap, all of
storage node 5, and a fresh offset of the same node. -/
def c4var : Var6 :=
  { offset := 0, name := NAME_AUTO, etype := TINT32, width := 4, addr := 0, node := 5 }

def c4state : RegOptState :=
  { vars := List.replicate 192 c4var, opt := fun _ => [], extvars := 0, params := 0,
    ivar := 0, ovar := 0, hasdefer := false }

def c4node : GoNodeCore :=
  { nid := 5, origIsSelf := true, symPresent := true, symDotted := false,
    cls := PAUTO, addrtaken := false }

def c4addr : Addr6 :=
  { atype := TYPE_MEM, aname := NAME_AUTO, reg := 0, index := 0, offset := 9999,
    width := 4, etype := TINT32, node := some { opIsName := true, orig := some c4node } }

/-- Concrete inputs for the C5 witness: an 8-byte Var at offset 0 of node 5
and an overlapping 8-byte operand at offset 4 of the same node. -/
def c5state : RegOptState :=
  { vars := [{ offset := 0, name := NAME_AUTO, etype := TINT64, width := 8,
               addr := 0, node := 5 }],
    opt := fun _ => [], extvars := 0, params := 0, ivar := 0, ovar := 0,
    hasdefer := false }

def c5addr : Addr6 :=
  { atype := TYPE_MEM, aname := NAME_AUTO, reg := 0, index := 0, offset := 4,
    width := 8, etype := TINT64, node := some { opIsName := true, orig := some c4node } }

/-- Concrete inputs for the C1 witness: three Vars, node 0 = {0, 1} with
chain head 1, node 1 = {2}; Var 0 is live across the call. -/
def c1wV : PropVars :=
  { nodeOf := fun j => if j < 2 then 0 else if j = 2 then 1 else 3,
    optOf := fun m => if m = 0 then [1, 0] else if m = 1 then [2] else [] }

/-- Concrete inputs for the C10 witness: one flow node with clear `act`
bits (so `paint2` returns exactly the seed), one 32-bit integer variable,
frame pointer enabled. -/
def c10vars : List Var6 :=
  [{ offset := 0, name := NAME_AUTO, etype := TINT32, width := 4, addr := 0, node := 1 }]

/-! ### Lemmas about the `mkvar` scan loop -/

theorem mkvarScan_length (nid n : Nat) (o : Int) (et : Nat) (w : Int) :
    ∀ (l : List Var6) (i : Nat) (flag : Bool),
      (mkvarScan nid n o et w l i flag).2.1.length = l.length := by
  intro l
  induction l with
  | nil => intro i flag; simp [mkvarScan]
  | cons v rest ih =>
    intro i flag
    simp only [mkvarScan]
    split_ifs <;> simp [ih]

theorem mkvarScan_getD (nid n : Nat) (o : Int) (et : Nat) (w : Int) :
    ∀ (l : List Var6) (i : Nat) (flag : Bool) (j : Nat),
      (mkvarScan nid n o et w l i flag).2.1.getD j default = l.getD j default
      ∨ (mkvarScan nid n o et w l i flag).2.1.getD j default
          = { l.getD j default with addr := 1 } := by
  intro l
  induction l with
  | nil => intro i flag j; simp [mkvarScan]
  | cons v rest ih =>
    intro i flag j
    simp only [mkvarScan]
    split_ifs with h1 h2 h3
    · left; rfl
    · cases j with
      | zero => right; simp
      | succ j' => simpa using ih (i + 1) true j'
    · cases j with
      | zero => left; simp
      | succ j' => simpa using ih (i + 1) flag j'
    · cases j with
      | zero => left; simp
      | succ j' => simpa using ih (i + 1) flag j'

theorem mkvarScan_flag_true (nid n : Nat) (o : Int) (et : Nat) (w : Int) :
    ∀ (l : List Var6) (i : Nat), (mkvarScan nid n o et w l i true).2.2 = true := by
  intro l
  induction l with
  | nil => intro i; simp [mkvarScan]
  | cons v rest ih =>
    intro i
    simp only [mkvarScan]
    split_ifs <;> simp [ih]

theorem mkvarScan_none_marks (nid n : Nat) (o : Int) (et : Nat) (w : Int) :
    ∀ (l : List Var6) (i : Nat) (flag : Bool),
      (mkvarScan nid n o et w l i flag).1 = none →
      ∀ j, j < l.length →
        (l.getD j default).node = nid → (l.getD j default).name = n →
        overlap (l.getD j default).offset (l.getD j default).width o w = true →
        ¬((l.getD j default).offset = o ∧ (l.getD j default).etype = et ∧
          (l.getD j default).width = w) →
        ((mkvarScan nid n o et w l i flag).2.1.getD j default).addr = 1
        ∧ (mkvarScan nid n o et w l i flag).2.2 = true := by
  intro l
  induction l with
  | nil => intro i flag _ j hj; simp at hj
  | cons v rest ih =>
    intro i flag hnone j hj hnode hname hover hnex
    by_cases h1 : v.node = nid ∧ v.name = n
    · by_cases h2 : v.offset = o ∧ v.etype = et ∧ v.width = w
      · simp [mkvarScan, h1.1, h1.2, h2.1, h2.2.1, h2.2.2] at hnone
      · by_cases h3 : overlap v.offset v.width o w = true
        · have hnone' : (mkvarScan nid n o et w rest (i + 1) true).1 = none := by
            simpa [mkvarScan, h1.1, h1.2, h2, h3] using hnone
          cases j with
          | zero =>
            constructor
            · simp [mkvarScan, h1.1, h1.2, h2, h3]
            · simp [mkvarScan, h1.1, h1.2, h2, h3, mkvarScan_flag_true]
          | succ j' =>
            simp only [List.getD_cons_succ] at hnode hname hover hnex
            have hr := ih (i + 1) true hnone' j' (by simpa using hj) hnode hname hover hnex
            constructor
            · have := hr.1
              simp only [mkvarScan, h1.1, h1.2, h2, h3] at *
              simpa [mkvarScan, h1.1, h1.2, h2, h3] using this
            · simpa [mkvarScan, h1.1, h1.2, h2, h3] using hr.2
        · cases j with
          | zero =>
            simp only [List.getD_cons_zero] at hover
            exact absurd hover h3
          | succ j' =>
            have hnone' : (mkvarScan nid n o et w rest (i + 1) flag).1 = none := by
              simpa [mkvarScan, h1.1, h1.2, h2, h3] using hnone
            simp only [List.getD_cons_succ] at hnode hname hover hnex
            have hr := ih (i + 1) flag hnone' j' (by simpa using hj) hnode hname hover hnex
            constructor
            · simpa [mkvarScan, h1.1, h1.2, h2, h3] using hr.1
            · simpa [mkvarScan, h1.1, h1.2, h2, h3] using hr.2
    · cases j with
      | zero =>
        simp only [List.getD_cons_zero] at hnode hname
        exact absurd ⟨hnode, hname⟩ h1
      | succ j' =>
        have hnone' : (mkvarScan nid n o et w rest (i + 1) flag).1 = none := by
          simpa [mkvarScan, h1] using hnone
        simp only [List.getD_cons_succ] at hnode hname hover hnex
        have hr := ih (i + 1) flag hnone' j' (by simpa using hj) hnode hname hover hnex
        constructor
        · simpa [mkvarScan, h1] using hr.1
        · simpa [mkvarScan, h1] using hr.2

theorem bitclear_testBit (a b i : Nat) :
    (bitclear a b).testBit i = (a.testBit i && !(b.testBit i)) := by
  unfold bitclear
  rw [Nat.testBit_land, Nat.testBit_xor]
  cases a.testBit i <;> cases b.testBit i <;> rfl

theorem blsh_testBit (i j : Nat) : (blsh i).testBit j = true ↔ i = j := by
  unfold blsh
  rcases eq_or_ne i j with h | h
  · subst h; simp [Nat.testBit_two_pow_self]
  · simp [Nat.testBit_two_pow_of_ne h, h]

theorem foldl_collect_testBit (P : Nat → Prop) [DecidablePred P] :
    ∀ (l : List Nat) (b : Nat) (j : Nat),
      ((l.foldl (fun acc i => if P i then acc ||| blsh i else acc) b).testBit j = true)
        ↔ (b.testBit j = true ∨ (j ∈ l ∧ P j)) := by
  intro l
  induction l with
  | nil => simp
  | cons x xs ih =>
    intro b j
    simp only [List.foldl_cons]
    rw [ih]
    by_cases hx : P x
    · simp only [if_pos hx, Nat.testBit_lor, Bool.or_eq_true, List.mem_cons]
      constructor
      · rintro (⟨h | h⟩ | h)
        · exact Or.inl h
        · exact Or.inr ⟨Or.inl ((blsh_testBit x j).mp h).symm, by
            rw [← (blsh_testBit x j).mp h]; exact hx⟩
        · exact Or.inr ⟨Or.inr h.1, h.2⟩
      · rintro (h | ⟨h | h, hP⟩)
        · exact Or.inl (Or.inl h)
        · exact Or.inl (Or.inr ((blsh_testBit x j).mpr h.symm))
        · exact Or.inr ⟨h, hP⟩
    · simp only [if_neg hx, List.mem_cons]
      constructor
      · rintro (h | h)
        · exact Or.inl h
        · exact Or.inr ⟨Or.inr h.1, h.2⟩
      · rintro (h | ⟨h | h, hP⟩)
        · exact Or.inl h
        · exact absurd (h ▸ hP) hx
        · exact Or.inr ⟨h, hP⟩

theorem addrsOf_testBit (vars : List Var6) (j : Nat) :
    (addrsOf vars).testBit j = true
      ↔ (j < vars.length ∧ (vars.getD j default).addr ≠ 0) := by
  unfold addrsOf
  rw [foldl_collect_testBit (fun i => (vars.getD i default).addr ≠ 0)]
  simp [List.mem_range]

/-- An address-marked Var's bit can never be in the region-start set of
regopt pass 5. -/
theorem regionStartBits_excludes (rb ra act addrs j : Nat)
    (h : addrs.testBit j = true) :
    (regionStartBits rb ra act addrs).testBit j = false := by
  simp [regionStartBits, bitclear_testBit, Nat.testBit_lor, h]

end GoCC

namespace GoCC

/-- C3: the claim says that among regions of equal cost the one with the
LOWER variable index sorts first, i.e. `rcmp` of the lower-index region
against the higher-index one is negative (qsort ascending order). In fact
`rcmp` returns `p2->varno - p1->varno`, which is positive here: the
lower-index region sorts AFTER the higher-index one. -/
theorem rcmp_lower_varno_not_first : 0 < rcmp rgnLow rgnHigh := by
  decide

/-- C3 (amended): `rcmp` orders regions by strictly descending cost and,
among equal costs, places the region with the HIGHER variable index first;
the comparator is antisymmetric and depends only on (cost, varno), so the
qsort order of regions with distinct (cost, varno) keys is determined. -/
theorem rcmp_orders_desc_cost_then_desc_varno (p1 p2 : Rgn) :
    (rcmp p1 p2 < 0 ↔ (p2.cost < p1.cost ∨ (p2.cost = p1.cost ∧ p2.varno < p1.varno)))
    ∧ rcmp p1 p2 = -rcmp p2 p1
    ∧ (rcmp p1 p2 = 0 ↔ (p1.cost = p2.cost ∧ p1.varno = p2.varno)) := by
  unfold rcmp
  refine ⟨?_, ?_, ?_⟩
  · by_cases h : p2.cost - p1.cost = 0 <;> simp [h] <;> omega
  · by_cases h : p2.cost - p1.cost = 0
    · have h' : p1.cost - p2.cost = 0 := by omega
      simp only [h, h', if_pos, if_neg, ne_eq, not_true_eq_false, ite_false]
      omega
    · have h' : ¬(p1.cost - p2.cost = 0) := by omega
      simp only [ne_eq, h, h', not_false_eq_true, ite_true]
      omega
  · by_cases h : p2.cost - p1.cost = 0 <;> simp [h] <;> omega

end GoCC

namespace GoCC

/-- C4: whenever `mkvar` would create a new `Var` but the table has already
reached the fixed cap `NVAR`, the new storage location is not tracked —
`mkvar` returns the empty bitset and the table keeps its size — and every
already-tracked `Var` of the same storage node is marked address-escaped
(`addr = 1`), so the whole node degrades conservatively instead of failing
the compilation. -/
theorem mkvar_cap_degrades (st : RegOptState) (a : Addr6) (nd : GoNodeRef)
    (node : GoNodeCore)
    (hty : a.atype = TYPE_MEM)
    (hnm : a.aname = NAME_EXTERN ∨ a.aname = NAME_STATIC ∨
           a.aname = NAME_PARAM ∨ a.aname = NAME_AUTO)
    (hnode : a.node = some nd)
    (hop : nd.opIsName = true)
    (horig : nd.orig = some node)
    (hself : node.origIsSelf = true)
    (hsym : node.symPresent = true)
    (hdot : node.symDotted = false)
    (hw : 0 ≤ a.width)
    (hscan : (mkvarScan node.nid a.aname a.offset a.etype a.width st.vars 0 false).1 = none)
    (het0 : a.etype ≠ 0) (hetf : a.etype ≠ TFUNC)
    (hcap : NVAR ≤ st.vars.length) :
    ∃ st', mkvar st a = some (0, st', doregbits a.index)
      ∧ st'.vars.length = st.vars.length
      ∧ ∀ j, j < st.vars.length → (st.vars.getD j default).node = node.nid →
          (st'.vars.getD j default).addr = 1 := by
  have ht0 : ¬ a.atype = TYPE_NONE := by rw [hty]; decide
  have hta : ¬ a.atype = TYPE_ADDR := by rw [hty]; decide
  have hw' : ¬ a.width < 0 := by omega
  unfold mkvar
  rw [if_neg ht0, if_neg hta, if_pos hty]
  unfold mkvarMem
  rw [if_neg (not_not_intro hnm), hnode]
  simp only [hop, horig, hself, hsym, hdot, not_true_eq_false, Bool.false_eq_true,
    if_false, not_false_eq_true, or_false, Bool.true_eq_false, if_neg hw']
  rcases hg : mkvarScan node.nid a.aname a.offset a.etype a.width st.vars 0 false
    with ⟨f, vars1, flag⟩
  rw [hg] at hscan
  simp only at hscan
  subst hscan
  have hv1 : (mkvarScan node.nid a.aname a.offset a.etype a.width st.vars 0 false).2.1
      = vars1 := by rw [hg]
  have hlen : vars1.length = st.vars.length := by
    rw [← hv1]; exact mkvarScan_length node.nid a.aname a.offset a.etype a.width st.vars 0 false
  dsimp only
  rw [if_neg (by tauto : ¬(a.etype = 0 ∨ a.etype = TFUNC)),
    if_pos (by omega : NVAR ≤ vars1.length)]
  refine ⟨_, rfl, ?_, ?_⟩
  · simpa using hlen
  · intro j hj hnodej
    have hjl : j < vars1.length := by omega
    have hnode1 : (vars1.getD j default).node = node.nid := by
      rcases mkvarScan_getD node.nid a.aname a.offset a.etype a.width st.vars 0 false j
        with hc | hc
      · rw [hv1] at hc; rw [hc]; exact hnodej
      · rw [hv1] at hc; rw [hc]; exact hnodej
    have hjm : j < (vars1.map (fun v : Var6 =>
        if v.node = node.nid then { v with addr := 1 } else v)).length := by
      simpa [hlen] using hj
    rw [List.getD_eq_getElem _ _ hjm]
    rw [List.getD_eq_getElem _ _ hjl] at hnode1
    simp [List.getElem_map, hnode1]

set_option maxRecDepth 40000 in
theorem mkvar_cap_degrades_witness :
    ∃ st', mkvar c4state c4addr = some (0, st', doregbits c4addr.index)
      ∧ st'.vars.length = c4state.vars.length
      ∧ ∀ j, j < c4state.vars.length → (c4state.vars.getD j default).node = c4node.nid →
          (st'.vars.getD j default).addr = 1 :=
  mkvar_cap_degrades c4state c4addr _ c4node rfl (Or.inr (Or.inr (Or.inr rfl))) rfl rfl rfl
    rfl rfl rfl (by decide) (by decide) (by decide) (by decide) (by decide)

/-- C5: when `mkvar` processes an operand whose (offset, width) range
overlaps — without being identical to — that of an existing Var of the same
storage node and storage class, both the existing and the newly created Var
end up address-marked (`addr = 1`), and an address-marked Var's bit is
excluded from the region-start set of regopt pass 5, so neither is ever
registerized. -/
theorem mkvar_overlap_disables (st : RegOptState) (a : Addr6) (nd : GoNodeRef)
    (node : GoNodeCore)
    (hty : a.atype = TYPE_MEM)
    (hnm : a.aname = NAME_EXTERN ∨ a.aname = NAME_STATIC ∨
           a.aname = NAME_PARAM ∨ a.aname = NAME_AUTO)
    (hnode : a.node = some nd)
    (hop : nd.opIsName = true)
    (horig : nd.orig = some node)
    (hself : node.origIsSelf = true)
    (hsym : node.symPresent = true)
    (hdot : node.symDotted = false)
    (hw : 0 ≤ a.width)
    (hscan : (mkvarScan node.nid a.aname a.offset a.etype a.width st.vars 0 false).1 = none)
    (het0 : a.etype ≠ 0) (hetf : a.etype ≠ TFUNC)
    (hcap : st.vars.length < NVAR)
    (j : Nat) (hj : j < st.vars.length)
    (hjnode : (st.vars.getD j default).node = node.nid)
    (hjname : (st.vars.getD j default).name = a.aname)
    (hover : overlap (st.vars.getD j default).offset (st.vars.getD j default).width
               a.offset a.width = true)
    (hnotid : ¬((st.vars.getD j default).offset = a.offset ∧
                (st.vars.getD j default).width = a.width)) :
    ∃ st', mkvar st a = some (blsh st.vars.length, st', doregbits a.index)
      ∧ st'.vars.length = st.vars.length + 1
      ∧ (st'.vars.getD j default).addr = 1
      ∧ (st'.vars.getD st.vars.length default).addr = 1
      ∧ ∀ rb ra act,
          (regionStartBits rb ra act (addrsOf st'.vars)).testBit j = false
          ∧ (regionStartBits rb ra act (addrsOf st'.vars)).testBit st.vars.length = false := by
  have ht0 : ¬ a.atype = TYPE_NONE := by rw [hty]; decide
  have hta : ¬ a.atype = TYPE_ADDR := by rw [hty]; decide
  have hw' : ¬ a.width < 0 := by omega
  have hnotex : ¬((st.vars.getD j default).offset = a.offset ∧
      (st.vars.getD j default).etype = a.etype ∧
      (st.vars.getD j default).width = a.width) := by tauto
  have hmarks := mkvarScan_none_marks node.nid a.aname a.offset a.etype a.width st.vars 0 false
    hscan j hj hjnode hjname hover hnotex
  unfold mkvar
  rw [if_neg ht0, if_neg hta, if_pos hty]
  unfold mkvarMem
  rw [if_neg (not_not_intro hnm), hnode]
  simp only [hop, horig, hself, hsym, hdot, not_true_eq_false, Bool.false_eq_true,
    if_false, not_false_eq_true, or_false, Bool.true_eq_false, if_neg hw']
  rcases hg : mkvarScan node.nid a.aname a.offset a.etype a.width st.vars 0 false
    with ⟨f, vars1, flag⟩
  rw [hg] at hscan hmarks
  simp only at hscan hmarks
  subst hscan
  have hv1 : (mkvarScan node.nid a.aname a.offset a.etype a.width st.vars 0 false).2.1
      = vars1 := by rw [hg]
  have hlen : vars1.length = st.vars.length := by
    rw [← hv1]; exact mkvarScan_length node.nid a.aname a.offset a.etype a.width st.vars 0 false
  have hflag : flag = true := hmarks.2
  subst hflag
  dsimp only
  rw [if_neg (by tauto : ¬(a.etype = 0 ∨ a.etype = TFUNC)),
    if_neg (by omega : ¬ NVAR ≤ vars1.length)]
  rw [hlen]
  refine ⟨_, rfl, ?_, ?_, ?_, ?_⟩
  · simp [hlen]
  · -- the pre-existing overlapping Var stays marked in vars1 ++ [v]
    rw [List.getD_append _ _ _ _ (by omega)]
    exact hmarks.1
  · -- the fresh Var carries addr = flag = 1
    rw [← hlen, List.getD_eq_getElem _ _ (by simp), List.getElem_concat_length _ _ _ rfl]
    simp
  · intro rb ra act
    constructor
    · refine regionStartBits_excludes _ _ _ _ _ ((addrsOf_testBit _ _).mpr ⟨?_, ?_⟩)
      · simp; omega
      · rw [List.getD_append _ _ _ _ (by omega), hmarks.1]; decide
    · refine regionStartBits_excludes _ _ _ _ _ ((addrsOf_testBit _ _).mpr ⟨?_, ?_⟩)
      · simp; omega
      · rw [← hlen, List.getD_eq_getElem _ _ (by simp), List.getElem_concat_length _ _ _ rfl]
        simp

theorem mkvar_overlap_disables_witness :
    ∃ st', mkvar c5state c5addr = some (blsh c5state.vars.length, st', doregbits c5addr.index)
      ∧ st'.vars.length = c5state.vars.length + 1
      ∧ (st'.vars.getD 0 default).addr = 1
      ∧ (st'.vars.getD c5state.vars.length default).addr = 1
      ∧ ∀ rb ra act,
          (regionStartBits rb ra act (addrsOf st'.vars)).testBit 0 = false
          ∧ (regionStartBits rb ra act (addrsOf st'.vars)).testBit c5state.vars.length
              = false :=
  mkvar_overlap_disables c5state c5addr _ c4node rfl (Or.inr (Or.inr (Or.inr rfl))) rfl rfl
    rfl rfl rfl rfl (by decide) (by decide) (by decide) (by decide) (by decide) 0 (by decide)
    (by decide) (by decide) (by decide) (by decide)

/-! ### Lemmas about the sibling expansion of `prop` (claims C1/C2) -/

theorem foldl_or_testBit : ∀ (l : List Nat) (c : Nat) (b : Nat),
    ((l.foldl (fun c k => c ||| blsh k) c).testBit b = true)
      ↔ (c.testBit b = true ∨ b ∈ l) := by
  intro l
  induction l with
  | nil => simp
  | cons x xs ih =>
    intro c b
    simp only [List.foldl_cons]
    rw [ih]
    simp only [Nat.testBit_lor, Bool.or_eq_true, List.mem_cons]
    rw [blsh_testBit]
    constructor
    · rintro (⟨h | h⟩ | h)
      · exact Or.inl h
      · exact Or.inr (Or.inl h.symm)
      · exact Or.inr (Or.inr h)
    · rintro (h | h | h)
      · exact Or.inl (Or.inl h)
      · exact Or.inl (Or.inr h.symm)
      · exact Or.inr h

theorem expandStep_mono (V : PropVars) (c i b : Nat) (h : c.testBit b = true) :
    (expandStep V c i).testBit b = true := by
  unfold expandStep
  by_cases hci : c.testBit i = false
  · rw [if_pos hci]; exact h
  · rw [if_neg hci]
    rcases hopt : V.optOf (V.nodeOf i) with _ | ⟨v1, t⟩
    · exact h
    · show (if v1 = i ∨ c.testBit v1 = false then
          (v1 :: t).foldl (fun c k => c ||| blsh k) c else c).testBit b = true
      by_cases hg : v1 = i ∨ c.testBit v1 = false
      · rw [if_pos hg]
        exact (foldl_or_testBit _ _ _).mpr (Or.inl h)
      · rw [if_neg hg]; exact h

theorem propFold_mono (V : PropVars) : ∀ (ixs : List Nat) (c b : Nat),
    c.testBit b = true → (ixs.foldl (expandStep V) c).testBit b = true := by
  intro ixs
  induction ixs with
  | nil => intro c b h; simpa using h
  | cons x xs ih => intro c b h; exact ih _ _ (expandStep_mono V c x b h)

theorem fromMid_step (V : PropVars) (mid : Nat)
    (hchain : ∀ m k, k ∈ V.optOf m → V.nodeOf k = m)
    (i c : Nat) (hQ : fromMid V mid c) : fromMid V mid (expandStep V c i) := by
  intro b hb
  unfold expandStep at hb
  by_cases hci : c.testBit i = false
  · rw [if_pos hci] at hb; exact hQ b hb
  · rw [if_neg hci] at hb
    rcases hopt : V.optOf (V.nodeOf i) with _ | ⟨v1, t⟩
    · rw [hopt] at hb; exact hQ b hb
    · rw [hopt] at hb
      rw [show (match v1 :: t with
          | [] => c
          | v1 :: rest =>
            if v1 = i ∨ c.testBit v1 = false then
              (v1 :: rest).foldl (fun c k => c ||| blsh k) c else c)
          = (if v1 = i ∨ c.testBit v1 = false then
              (v1 :: t).foldl (fun c k => c ||| blsh k) c else c) from rfl] at hb
      by_cases hg : v1 = i ∨ c.testBit v1 = false
      · rw [if_pos hg] at hb
        rcases (foldl_or_testBit _ _ _).mp hb with hcb | hbch
        · exact hQ b hcb
        · have hci' : c.testBit i = true := by simpa using hci
          rcases hQ i hci' with hmi | ⟨k, hk, hik⟩
          · exact Or.inr ⟨i, hmi, by rw [hopt]; exact hbch⟩
          · have hik' : V.nodeOf i = V.nodeOf k := hchain _ _ hik
            refine Or.inr ⟨k, hk, ?_⟩
            rw [← hik', hopt]
            exact hbch
      · rw [if_neg hg] at hb; exact hQ b hb

theorem fromMid_fold (V : PropVars) (mid : Nat)
    (hchain : ∀ m k, k ∈ V.optOf m → V.nodeOf k = m) :
    ∀ (ixs : List Nat) (c : Nat), fromMid V mid c →
      fromMid V mid (ixs.foldl (expandStep V) c) := by
  intro ixs
  induction ixs with
  | nil => intro c h; simpa using h
  | cons x xs ih => intro c h; exact ih _ (fromMid_step V mid hchain x c h)

theorem expandStep_of_unset (V : PropVars) (c i : Nat) (h : c.testBit i = false) :
    expandStep V c i = c := by
  unfold expandStep; rw [if_pos h]

theorem expandStep_of_nil (V : PropVars) (c i : Nat)
    (h : V.optOf (V.nodeOf i) = []) : expandStep V c i = c := by
  unfold expandStep
  by_cases hci : c.testBit i = false
  · rw [if_pos hci]
  · rw [if_neg hci, h]

theorem expandStep_write (V : PropVars) (c i v1 : Nat) (t : List Nat)
    (hci : c.testBit i = true) (hopt : V.optOf (V.nodeOf i) = v1 :: t)
    (hg : v1 = i ∨ c.testBit v1 = false) :
    expandStep V c i = (v1 :: t).foldl (fun c k => c ||| blsh k) c := by
  unfold expandStep
  rw [if_neg (by simp [hci]), hopt]
  exact if_pos hg

theorem expandStep_skip (V : PropVars) (c i v1 : Nat) (t : List Nat)
    (hci : c.testBit i = true) (hopt : V.optOf (V.nodeOf i) = v1 :: t)
    (hg : ¬(v1 = i ∨ c.testBit v1 = false)) :
    expandStep V c i = c := by
  unfold expandStep
  rw [if_neg (by simp [hci]), hopt]
  exact if_neg hg

theorem pendInv_step (V : PropVars)
    (hchain : ∀ m k, k ∈ V.optOf m → V.nodeOf k = m)
    (i : Nat) (rest : List Nat) (c : Nat)
    (hP : pendInv V (i :: rest) c) :
    pendInv V rest (expandStep V c i) := by
  by_cases hci : c.testBit i = false
  · rw [expandStep_of_unset V c i hci]
    intro j hj
    rcases hP j hj with h | h | ⟨v1, t, hch, hv1, hbit⟩
    · exact Or.inl h
    · rcases List.mem_cons.mp h with rfl | h'
      · rw [hci] at hj; simp at hj
      · exact Or.inr (Or.inl h')
    · rcases List.mem_cons.mp hv1 with rfl | h'
      · rw [hci] at hbit; simp at hbit
      · exact Or.inr (Or.inr ⟨v1, t, hch, h', hbit⟩)
  · have hci' : c.testBit i = true := by simpa using hci
    rcases hopt : V.optOf (V.nodeOf i) with _ | ⟨v1, t⟩
    · rw [expandStep_of_nil V c i hopt]
      intro j hj
      rcases hP j hj with h | h | ⟨w, t', hch, hw, hbit⟩
      · exact Or.inl h
      · rcases List.mem_cons.mp h with rfl | h'
        · refine Or.inl ?_
          intro k hk
          rw [hopt] at hk
          exact absurd hk (List.not_mem_nil k)
        · exact Or.inr (Or.inl h')
      · rcases List.mem_cons.mp hw with rfl | h'
        · have hnw : V.nodeOf w = V.nodeOf j :=
            hchain _ _ (by rw [hch]; exact List.mem_cons_self _ _)
          rw [← hnw, hopt] at hch
          cases hch
        · exact Or.inr (Or.inr ⟨w, t', hch, h', hbit⟩)
    · by_cases hg : v1 = i ∨ c.testBit v1 = false
      · rw [expandStep_write V c i v1 t hci' hopt hg]
        have hmono : ∀ b, c.testBit b = true →
            ((v1 :: t).foldl (fun c k => c ||| blsh k) c).testBit b = true :=
          fun b hb => (foldl_or_testBit _ _ _).mpr (Or.inl hb)
        have hset : ∀ k ∈ (v1 :: t),
            ((v1 :: t).foldl (fun c k => c ||| blsh k) c).testBit k = true :=
          fun k hk => (foldl_or_testBit _ _ _).mpr (Or.inr hk)
        intro j hj
        rcases (foldl_or_testBit _ _ _).mp hj with hcj | hjch
        · rcases hP j hcj with h | h | ⟨w, t', hch, hw, hbit⟩
          · exact Or.inl (fun k hk => hmono _ (h k hk))
          · rcases List.mem_cons.mp h with rfl | h'
            · refine Or.inl (fun k hk => ?_)
              rw [hopt] at hk
              exact hset k hk
            · exact Or.inr (Or.inl h')
          · rcases List.mem_cons.mp hw with rfl | h'
            · have hnw : V.nodeOf w = V.nodeOf j :=
                hchain _ _ (by rw [hch]; exact List.mem_cons_self _ _)
              refine Or.inl (fun k hk => ?_)
              rw [← hnw, hopt] at hk
              exact hset k hk
            · exact Or.inr (Or.inr ⟨w, t', hch, h', hmono _ hbit⟩)
        · have hnj : V.nodeOf j = V.nodeOf i := hchain _ _ (by rw [hopt]; exact hjch)
          refine Or.inl (fun k hk => ?_)
          rw [hnj, hopt] at hk
          exact hset k hk
      · rw [expandStep_skip V c i v1 t hci' hopt hg]
        push_neg at hg
        obtain ⟨hne, hv1ne⟩ := hg
        have hv1set : c.testBit v1 = true := by simpa using hv1ne
        intro j hj
        rcases hP j hj with h | h | ⟨w, t', hch, hw, hbit⟩
        · exact Or.inl h
        · rcases List.mem_cons.mp h with rfl | h'
          · have hnv1 : V.nodeOf v1 = V.nodeOf j :=
              hchain _ _ (by rw [hopt]; exact List.mem_cons_self _ _)
            rcases hP v1 hv1set with hv | hv | ⟨w, t', hch', hw, hbit'⟩
            · exact Or.inl (fun k hk => hv k (by rw [hnv1]; exact hk))
            · rcases List.mem_cons.mp hv with h'' | h''
              · exact absurd h'' hne
              · exact Or.inr (Or.inr ⟨v1, t, hopt, h'', hv1set⟩)
            · rw [hnv1, hopt] at hch'
              injection hch' with he1 he2
              subst he1
              rcases List.mem_cons.mp hw with h'' | h''
              · exact absurd h'' hne
              · exact Or.inr (Or.inr ⟨v1, t, hopt, h'', hv1set⟩)
          · exact Or.inr (Or.inl h')
        · rcases List.mem_cons.mp hw with rfl | h'
          · have hnw : V.nodeOf w = V.nodeOf j :=
              hchain _ _ (by rw [hch]; exact List.mem_cons_self _ _)
            rw [← hnw, hopt] at hch
            injection hch with he1 he2
            exact absurd he1 hne
          · exact Or.inr (Or.inr ⟨w, t', hch, h', hbit⟩)

theorem pendInv_fold (V : PropVars)
    (hchain : ∀ m k, k ∈ V.optOf m → V.nodeOf k = m) :
    ∀ (ixs : List Nat) (c : Nat), pendInv V ixs c →
      pendInv V [] (ixs.foldl (expandStep V) c) := by
  intro ixs
  induction ixs with
  | nil => intro c h; simpa using h
  | cons x xs ih => intro c h; exact ih _ (pendInv_step V hchain x xs c h)

/-- C1 counterexample: Var 0 is an address-escaped local (`addr = 1`, so
bit 0 of the `addrs` bitset is set), yet at a returning call with empty
`ref`/`cal`/`externs`/`ivar`/`act` the `ACALL` case of `prop` leaves the
across-call set empty — the address-escaped set is NOT unioned in, contrary
to the claim. -/
theorem prop_call_ignores_address_escaped :
    (addrsOf c1vars).testBit 0 = true
    ∧ (propCallCase c1propVars 1 0 0 0 0 0).1 = 0
    ∧ (propCallCase c1propVars 1 0 0 0 0 0).2 = 0 := by
  refine ⟨by decide, rfl, by decide⟩

/-- C1 (amended): at a returning call, `prop` merges the ordinary live set
`ref` into the across-call set `cal`, additionally unions in the
external/static variables (`externs`), the incoming-parameter variables
(`ivar`) and the variables with a fat `VARDEF` since the last call
(`r->act`) — not the address-escaped set — resets `ref` to empty, and then
marks every sibling Var of each across-call-live Var's storage node live
across the call; the resulting set is exactly the sibling closure of the
merged set. -/
theorem prop_call_merges_and_expands
    (V : PropVars) (nvar : Nat) (extvars ivar act ref cal : Nat)
    (hchain : ∀ m k, k ∈ V.optOf m → V.nodeOf k = m)
    (hbits : ∀ b, (cal ||| ref ||| extvars ||| ivar ||| act).testBit b = true → b < nvar) :
    (propCallCase V nvar extvars ivar act ref cal).1 = 0
    ∧ (∀ b, (cal ||| ref ||| extvars ||| ivar ||| act).testBit b = true →
        (propCallCase V nvar extvars ivar act ref cal).2.testBit b = true)
    ∧ (∀ j, (propCallCase V nvar extvars ivar act ref cal).2.testBit j = true →
        ∀ k ∈ V.optOf (V.nodeOf j),
          (propCallCase V nvar extvars ivar act ref cal).2.testBit k = true)
    ∧ (∀ b, (propCallCase V nvar extvars ivar act ref cal).2.testBit b = true →
        (cal ||| ref ||| extvars ||| ivar ||| act).testBit b = true
        ∨ ∃ k, (cal ||| ref ||| extvars ||| ivar ||| act).testBit k = true
            ∧ b ∈ V.optOf (V.nodeOf k)) := by
  refine ⟨rfl, ?_, ?_, ?_⟩
  · intro b hb
    exact propFold_mono V (List.range nvar) _ b hb
  · intro j hj k hk
    have hinit : pendInv V (List.range nvar) (cal ||| ref ||| extvars ||| ivar ||| act) :=
      fun j' hj' => Or.inr (Or.inl (List.mem_range.mpr (hbits j' hj')))
    have hfin := pendInv_fold V hchain (List.range nvar) _ hinit
    rcases hfin j hj with h | h | ⟨v1, t, _, hv1, _⟩
    · exact h k hk
    · exact absurd h (List.not_mem_nil j)
    · exact absurd hv1 (List.not_mem_nil v1)
  · intro b hb
    have hinit : fromMid V (cal ||| ref ||| extvars ||| ivar ||| act)
        (cal ||| ref ||| extvars ||| ivar ||| act) := fun b' hb' => Or.inl hb'
    exact fromMid_fold V _ hchain (List.range nvar) _ hinit b hb

theorem prop_call_merges_and_expands_witness :
    (propCallCase c1wV 3 0 0 0 0 1).1 = 0
    ∧ (∀ b, ((1 : Nat) ||| 0 ||| 0 ||| 0 ||| 0).testBit b = true →
        (propCallCase c1wV 3 0 0 0 0 1).2.testBit b = true)
    ∧ (∀ j, (propCallCase c1wV 3 0 0 0 0 1).2.testBit j = true →
        ∀ k ∈ c1wV.optOf (c1wV.nodeOf j),
          (propCallCase c1wV 3 0 0 0 0 1).2.testBit k = true)
    ∧ (∀ b, (propCallCase c1wV 3 0 0 0 0 1).2.testBit b = true →
        ((1 : Nat) ||| 0 ||| 0 ||| 0 ||| 0).testBit b = true
        ∨ ∃ k, ((1 : Nat) ||| 0 ||| 0 ||| 0 ||| 0).testBit k = true
            ∧ b ∈ c1wV.optOf (c1wV.nodeOf k)) := by
  refine prop_call_merges_and_expands c1wV 3 0 0 0 0 1 ?_ ?_
  · intro m k hk
    by_cases h0 : m = 0
    · subst h0
      have hk' : k = 1 ∨ k = 0 := by simpa [c1wV] using hk
      rcases hk' with rfl | rfl <;> simp [c1wV]
    · by_cases h1 : m = 1
      · subst h1
        have hk' : k = 2 := by simpa [c1wV, h0] using hk
        subst hk'
        simp [c1wV]
      · exact absurd hk (by simp [c1wV, h0, h1])
  · intro b hb
    have hb1 : (1 : Nat).testBit b = true := by simpa using hb
    have : (0 : Nat) = b := (blsh_testBit 0 b).mp (by simpa [blsh] using hb1)
    omega

/-- C2 counterexample: at a `RET` node of a function with one
external/static variable (bit 0 of `externs`) and empty set/use sets,
`prop` leaves the across-call set {0}, not empty — the `ARET` case
performs `cal = externs | ovar`, not a reset to the empty set. -/
theorem prop_ret_cal_not_reset :
    (propTransfer propVarsTrivial 1 1 0 0 .pret pnodeZero 0 0).2 ≠ 0 := by
  decide

/-- C2 (amended): at a `RET` node, `prop` resets the ordinary set to empty
and sets the across-call set to `externs ∪ ovar` (so refbehind is
`use1 ∪ use2` and calbehind is `(externs ∪ ovar) ∖ (set ∪ use1 ∪ use2)`);
and at every node the generic transfer is
`ref := (ref ∖ set) ∪ use1 ∪ use2` and `cal := cal ∖ (set ∪ use1 ∪ use2)`. -/
theorem prop_ret_and_transfer_characterization
    (V : PropVars) (nvar : Nat) (extvars ivar ovar : Nat) (nd : PropNode)
    (ref cal : Nat) (i : Nat) :
    ((propTransfer V nvar extvars ivar ovar .pret nd ref cal).1.testBit i = true
        ↔ (nd.use1.testBit i = true ∨ nd.use2.testBit i = true))
    ∧ ((propTransfer V nvar extvars ivar ovar .pret nd ref cal).2.testBit i = true
        ↔ ((extvars.testBit i = true ∨ ovar.testBit i = true)
            ∧ ¬(nd.set.testBit i = true ∨ nd.use1.testBit i = true
                ∨ nd.use2.testBit i = true)))
    ∧ ((propTransfer V nvar extvars ivar ovar .pother nd ref cal).1.testBit i = true
        ↔ ((ref.testBit i = true ∧ ¬ nd.set.testBit i = true)
            ∨ nd.use1.testBit i = true ∨ nd.use2.testBit i = true))
    ∧ ((propTransfer V nvar extvars ivar ovar .pother nd ref cal).2.testBit i = true
        ↔ (cal.testBit i = true
            ∧ ¬(nd.set.testBit i = true ∨ nd.use1.testBit i = true
                ∨ nd.use2.testBit i = true))) := by
  have horr : ∀ x y z : Nat, ((x ||| y ||| z).testBit i = true)
      ↔ (x.testBit i = true ∨ y.testBit i = true ∨ z.testBit i = true) := by
    intro x y z; simp [Nat.testBit_lor, Bool.or_eq_true, or_assoc]
  have hbc : ∀ a b : Nat, ((bitclear a b).testBit i = true)
      ↔ (a.testBit i = true ∧ ¬ b.testBit i = true) := by
    intro a b
    rw [bitclear_testBit]
    cases a.testBit i <;> cases b.testBit i <;> simp
  refine ⟨?_, ?_, ?_, ?_⟩
  · show ((bitclear 0 nd.set ||| nd.use1 ||| nd.use2).testBit i = true) ↔ _
    rw [horr, hbc]
    simp [Nat.zero_testBit]
  · show ((bitclear (extvars ||| ovar) (nd.set ||| nd.use1 ||| nd.use2)).testBit i = true) ↔ _
    rw [hbc]
    simp [Nat.testBit_lor, Bool.or_eq_true, or_assoc]
  · show ((bitclear ref nd.set ||| nd.use1 ||| nd.use2).testBit i = true) ↔ _
    rw [horr, hbc]
  · show ((bitclear cal (nd.set ||| nd.use1 ||| nd.use2)).testBit i = true) ↔ _
    rw [hbc]
    simp [Nat.testBit_lor, Bool.or_eq_true, or_assoc]

/-! ### Lemmas for the register chooser (claim C10) -/

theorem bitnoAux_testBit : ∀ (fuel b : Nat), b ≠ 0 → b < 2 ^ fuel →
    b.testBit (bitnoAux fuel b) = true := by
  intro fuel
  induction fuel with
  | zero => intro b hb hlt; omega
  | succ fuel ih =>
    intro b hb hlt
    unfold bitnoAux
    by_cases h1 : b % 2 = 1
    · rw [if_pos h1]
      simp [Nat.testBit_zero, h1]
    · rw [if_neg h1]
      have hb2 : b / 2 ≠ 0 := by omega
      have hlt2 : b / 2 < 2 ^ fuel := by
        rw [pow_succ] at hlt; omega
      rw [Nat.testBit_succ]
      exact ih (b / 2) hb2 hlt2

theorem bitnoAux_min : ∀ (fuel b j : Nat), j < bitnoAux fuel b →
    b.testBit j = false := by
  intro fuel
  induction fuel with
  | zero => intro b j hj; simp [bitnoAux] at hj
  | succ fuel ih =>
    intro b j hj
    unfold bitnoAux at hj
    by_cases h1 : b % 2 = 1
    · rw [if_pos h1] at hj; omega
    · rw [if_neg h1] at hj
      cases j with
      | zero => simp [Nat.testBit_zero]; omega
      | succ j' =>
        rw [Nat.testBit_succ]
        exact ih (b / 2) j' (by omega)

/-- If bit `k` of `b2` is clear, the `bitno`-based register pick of `BtoR`
cannot land on register `k + REG_AX`. -/
theorem btorCore_ne (b2 k : Nat) (hlt : b2 < 2 ^ 64) (hbit : b2.testBit k = false) :
    (if b2 = 0 then (0 : Nat) else bitnoAux 64 b2 + 16) ≠ k + 16 := by
  by_cases hz : b2 = 0
  · rw [if_pos hz]; omega
  · rw [if_neg hz]
    intro hc
    have hk : bitnoAux 64 b2 = k := by omega
    have htb := bitnoAux_testBit 64 b2 hz hlt
    rw [hk, hbit] at htb
    cases htb

theorem BtoR_avoids (nacl fp : Bool) (b : Nat) (hsp : b.testBit 4 = false) :
    BtoR nacl fp b ≠ REG_SP
    ∧ (fp = true → BtoR nacl fp b ≠ REG_BP)
    ∧ (nacl = true → BtoR nacl fp b ≠ REG_BP ∧ BtoR nacl fp b ≠ REG_R15) := by
  have hb1le : b &&& 0xffff ≤ 0xffff := Nat.and_le_right
  have hb14 : (b &&& 0xffff).testBit 4 = false := by
    rw [Nat.testBit_land, hsp]; rfl
  unfold BtoR REG_SP REG_BP REG_R15 REG_AX
  dsimp only
  cases nacl with
  | true =>
    simp only [if_true, ite_true]
    have hle : bitclear (b &&& 0xffff) (2 ^ (REG_BP - REG_AX) ||| 2 ^ (REG_R15 - REG_AX))
        ≤ b &&& 0xffff := Nat.and_le_left
    have hlt : bitclear (b &&& 0xffff) (2 ^ (REG_BP - REG_AX) ||| 2 ^ (REG_R15 - REG_AX))
        < 2 ^ 64 := by omega
    have h4 : (bitclear (b &&& 0xffff)
        (2 ^ (REG_BP - REG_AX) ||| 2 ^ (REG_R15 - REG_AX))).testBit 4 = false := by
      rw [bitclear_testBit, hb14]; rfl
    have h5 : (bitclear (b &&& 0xffff)
        (2 ^ (REG_BP - REG_AX) ||| 2 ^ (REG_R15 - REG_AX))).testBit 5 = false := by
      rw [bitclear_testBit]
      rw [show ((2 ^ (REG_BP - REG_AX) ||| 2 ^ (REG_R15 - REG_AX)) : Nat).testBit 5 = true
        from by decide]
      simp
    have h15 : (bitclear (b &&& 0xffff)
        (2 ^ (REG_BP - REG_AX) ||| 2 ^ (REG_R15 - REG_AX))).testBit 15 = false := by
      rw [bitclear_testBit]
      rw [show ((2 ^ (REG_BP - REG_AX) ||| 2 ^ (REG_R15 - REG_AX)) : Nat).testBit 15 = true
        from by decide]
      simp
    refine ⟨?_, fun _ => ?_, fun _ => ⟨?_, ?_⟩⟩
    · exact (show (20 : Nat) = 4 + 16 from rfl) ▸ btorCore_ne _ 4 hlt h4
    · exact (show (21 : Nat) = 5 + 16 from rfl) ▸ btorCore_ne _ 5 hlt h5
    · exact (show (21 : Nat) = 5 + 16 from rfl) ▸ btorCore_ne _ 5 hlt h5
    · exact (show (31 : Nat) = 15 + 16 from rfl) ▸ btorCore_ne _ 15 hlt h15
  | false =>
    simp only [Bool.false_eq_true, if_false, ite_false]
    cases fp with
    | true =>
      simp only [if_true, ite_true]
      have hle : bitclear (b &&& 0xffff) (2 ^ (REG_BP - REG_AX)) ≤ b &&& 0xffff :=
        Nat.and_le_left
      have hlt : bitclear (b &&& 0xffff) (2 ^ (REG_BP - REG_AX)) < 2 ^ 64 := by omega
      have h4 : (bitclear (b &&& 0xffff) (2 ^ (REG_BP - REG_AX))).testBit 4 = false := by
        rw [bitclear_testBit, hb14]; rfl
      have h5 : (bitclear (b &&& 0xffff) (2 ^ (REG_BP - REG_AX))).testBit 5 = false := by
        rw [bitclear_testBit]
        rw [show ((2 ^ (REG_BP - REG_AX)) : Nat).testBit 5 = true from by decide]
        simp
      refine ⟨?_, fun _ => ?_, fun hcon => by cases hcon⟩
      · exact (show (20 : Nat) = 4 + 16 from rfl) ▸ btorCore_ne _ 4 hlt h4
      · exact (show (21 : Nat) = 5 + 16 from rfl) ▸ btorCore_ne _ 5 hlt h5
    | false =>
      simp only [Bool.false_eq_true, if_false, ite_false]
      have hlt : b &&& 0xffff < 2 ^ 64 := by omega
      refine ⟨?_, fun hcon => hcon.elim, fun hcon => hcon.elim⟩
      exact (show (20 : Nat) = 4 + 16 from rfl) ▸ btorCore_ne _ 4 hlt hb14

/-- `BtoF` either fails or picks a floating register (≥ REG_X0). -/
theorem BtoF_ge (b0 : Nat) : BtoF b0 = 0 ∨ REG_X0 ≤ BtoF b0 := by
  unfold BtoF
  dsimp only
  by_cases hz : b0 &&& 0xFFFF0000 = 0
  · rw [if_pos hz]; left; rfl
  · rw [if_neg hz]
    right
    have hle : b0 &&& 0xFFFF0000 ≤ 0xFFFF0000 := Nat.and_le_right
    have hlt : b0 &&& 0xFFFF0000 < 2 ^ 64 := by omega
    have h16 : 16 ≤ bitnoAux 64 (b0 &&& 0xFFFF0000) := by
      by_contra h
      push_neg at h
      have htb := bitnoAux_testBit 64 _ hz hlt
      have hlow : ∀ j, j < 16 → ((0xFFFF0000 : Nat)).testBit j = false := by decide
      rw [Nat.testBit_land, hlow _ h, Bool.and_false] at htb
      cases htb
    unfold bitno REG_X0
    omega


/-- The `s2` step of `paint2` only ORs bits onto its accumulator. -/
theorem paint2S2_mono (g : List RNode) (bn fuel : Nat) (s : Option Nat)
    (pr : Nat × List Nat) (i : Nat) (h : pr.1.testBit i = true) :
    (paint2S2 g bn fuel s pr).1.testBit i = true := by
  rcases s with _ | r1
  · simpa [paint2S2] using h
  · unfold paint2S2
    by_cases hrb : (g.getD r1 default).refbehind.testBit bn = true
    · rw [if_pos hrb]
      simp [Nat.testBit_lor, h]
    · rw [if_neg hrb]
      exact h

/-- `paint2` (at any fuel, from any node and any `act` state) returns a
register set containing every bit of the seed `regbits`; its loop and
helpers only grow their accumulator. -/
theorem paint2_seed : ∀ fuel : Nat,
    (∀ (g : List RNode) (bn r : Nat) (acts : List Nat) (i : Nat),
      regbits.testBit i = true → (paint2F g bn fuel r acts).1.testBit i = true)
    ∧ (∀ (g : List RNode) (bn r vreg : Nat) (acts : List Nat) (i : Nat),
      vreg.testBit i = true → (paint2Loop g bn fuel r vreg acts).1.testBit i = true)
    ∧ (∀ (g : List RNode) (bn : Nat) (s : Option Nat) (pr : Nat × List Nat) (i : Nat),
      pr.1.testBit i = true → (paint2S1 g bn fuel s pr).1.testBit i = true)
    ∧ (∀ (g : List RNode) (bn : Nat) (l : List Nat) (vreg : Nat) (acts : List Nat) (i : Nat),
      vreg.testBit i = true → (paint2Preds g bn fuel l vreg acts).1.testBit i = true) := by
  intro fuel
  induction fuel with
  | zero =>
    refine ⟨?_, ?_, ?_, ?_⟩
    · intro g bn r acts i h
      simpa [paint2F] using h
    · intro g bn r vreg acts i h
      simpa [paint2Loop] using h
    · intro g bn s pr i h
      rcases s with _ | rs
      · simpa [paint2S1] using h
      · unfold paint2S1
        by_cases hc1 : (pr.2.getD rs 0).testBit bn = false
        · rw [if_pos hc1]; exact h
        · rw [if_neg hc1]
          by_cases hc2 : (g.getD rs default).refbehind.testBit bn = false
          · rw [if_pos hc2]; exact h
          · rw [if_neg hc2]
            simpa [paint2Loop] using h
    · intro g bn l vreg acts i h
      rcases l with _ | ⟨x, xs⟩ <;> simpa [paint2Preds] using h
  | succ fuel ih =>
    obtain ⟨ihF, ihL, ihS1, ihP⟩ := ih
    have hL : ∀ (g : List RNode) (bn r vreg : Nat) (acts : List Nat) (i : Nat),
        vreg.testBit i = true →
          (paint2Loop g bn (fuel + 1) r vreg acts).1.testBit i = true := by
      intro g bn r vreg acts i h
      unfold paint2Loop
      dsimp only
      have h1 : (vreg ||| (g.getD r default).regu).testBit i = true := by
        simp [Nat.testBit_lor, h]
      have hpr : (if (g.getD r default).refbehind.testBit bn
          then paint2Preds g bn fuel (g.getD r default).p2
            (vreg ||| (g.getD r default).regu)
            (acts.set r (bitclear (acts.getD r 0) (blsh bn)))
          else (vreg ||| (g.getD r default).regu,
            acts.set r (bitclear (acts.getD r 0) (blsh bn)))).1.testBit i = true := by
        split
        · exact ihP g bn _ _ _ i h1
        · exact h1
      split
      · exact hpr
      · exact ihS1 g bn (g.getD r default).s1 _ i
          (paint2S2_mono g bn fuel (g.getD r default).s2 _ i hpr)
    refine ⟨?_, hL, ?_, ?_⟩
    · intro g bn r acts i h
      unfold paint2F
      by_cases hact : (acts.getD r 0).testBit bn = false
      · rw [if_pos hact]; exact h
      · rw [if_neg hact]
        exact ihL g bn _ regbits acts i h
    · intro g bn s pr i h
      rcases s with _ | rs
      · simpa [paint2S1] using h
      · unfold paint2S1
        by_cases hc1 : (pr.2.getD rs 0).testBit bn = false
        · rw [if_pos hc1]; exact h
        · rw [if_neg hc1]
          by_cases hc2 : (g.getD rs default).refbehind.testBit bn = false
          · rw [if_pos hc2]; exact h
          · rw [if_neg hc2]
            exact hL g bn rs pr.1 pr.2 i h
    · intro g bn l vreg acts i h
      rcases l with _ | ⟨x, xs⟩
      · simpa [paint2Preds] using h
      · unfold paint2Preds
        by_cases hra : (g.getD x default).refahead.testBit bn = true
        · rw [if_pos hra]
          exact ihP g bn xs _ _ i (by simp [Nat.testBit_lor, h])
        · rw [if_neg hra]
          exact ihP g bn xs _ _ i h

/-- C10: `regbits` is initialised with the stack pointer's bit (reg.c line
156) and seeds the used-register set `paint2` returns for every region, and
`BtoR` masks out the excluded registers, so whenever `allreg` commits a
register to a region (`regno ≠ 0`) that register is distinct from `REG_SP`,
distinct from `REG_BP` when the frame pointer is enabled, and distinct from
both `REG_BP` and `REG_R15` under nacl (float registers being ≥ `REG_X0`
are distinct from all three trivially). -/
theorem allreg_never_sp_bp (g : List RNode) (bn fuel r0 : Nat)
    (acts : List Nat) (vars : List Var6) (nacl fp : Bool) (rg rg' : Rgn)
    (mask : Nat)
    (hres : allreg vars nacl fp (paint2F g bn fuel r0 acts).1 rg = some (rg', mask))
    (hregno : rg'.regno ≠ 0) :
    rg'.regno ≠ REG_SP
    ∧ (fp = true → rg'.regno ≠ REG_BP)
    ∧ (nacl = true → rg'.regno ≠ REG_BP ∧ rg'.regno ≠ REG_R15) := by
  have hseed : (paint2F g bn fuel r0 acts).1.testBit 4 = true :=
    (paint2_seed fuel).1 g bn r0 acts 4 (by decide)
  have hcompl : (compl32 (paint2F g bn fuel r0 acts).1).testBit 4 = false := by
    unfold compl32
    rw [Nat.testBit_xor, Nat.testBit_land, hseed]
    rw [show ((0xffffffff : Nat)).testBit 4 = true from by decide]
    rfl
  unfold allreg at hres
  dsimp only at hres
  split_ifs at hres with hint hcase hflt hcase2
  · -- integer class, register granted
    have hrg : rg' = { rg with regno := BtoR nacl fp (compl32 (paint2F g bn fuel r0 acts).1) } := by
      injection hres with h1
      injection h1 with h2 h3
      exact h2.symm
    have havoid := BtoR_avoids nacl fp (compl32 (paint2F g bn fuel r0 acts).1) hcompl
    rw [hrg]
    exact havoid
  · -- integer class, no register granted: regno = 0, excluded
    exfalso
    apply hregno
    injection hres with h1
    injection h1 with h2 h3
    rw [← h2]
  · -- float class, register granted: regno = BtoF ≥ REG_X0
    have hrg : rg' = { rg with regno := BtoF (compl32 (paint2F g bn fuel r0 acts).1) } := by
      injection hres with h1
      injection h1 with h2 h3
      exact h2.symm
    rcases BtoF_ge (compl32 (paint2F g bn fuel r0 acts).1) with hz | hge
    · exfalso
      apply hregno
      rw [hrg]
      exact hz
    · rw [hrg]
      unfold REG_X0 at hge
      refine ⟨?_, fun _ => ?_, fun _ => ⟨?_, ?_⟩⟩ <;>
        · show ¬ _ = _
          simp only [REG_SP, REG_BP, REG_R15]
          omega
  · -- float class, no register granted
    exfalso
    apply hregno
    injection hres with h1
    injection h1 with h2 h3
    rw [← h2]

theorem allreg_never_sp_bp_witness :
    ({ cost := 1, varno := 0, regno := 16 } : Rgn).regno ≠ REG_SP
    ∧ (true = true → ({ cost := 1, varno := 0, regno := 16 } : Rgn).regno ≠ REG_BP)
    ∧ (false = true → ({ cost := 1, varno := 0, regno := 16 } : Rgn).regno ≠ REG_BP
        ∧ ({ cost := 1, varno := 0, regno := 16 } : Rgn).regno ≠ REG_R15) :=
  allreg_never_sp_bp [default] 0 1 0 [0] c10vars false true
    { cost := 1, varno := 0, regno := 0 } { cost := 1, varno := 0, regno := 16 } 1
    (by
      have h1 : (paint2F [default] 0 1 0 [0]).1 = regbits := by
        simp [paint2F]
      rw [h1]
      decide)
    (by decide)

/-! ### The peephole claims (C6–C8) -/

/-- C6: the spec says two back-to-back moves of the same compile-time
constant into the same register collapse to one, naming the scenario
`MOV $5, R1; MOV $5, R1`.  The code does not: `conprop`'s excise chain
(peep.c line 749) requires `p->from.type == TYPE_FCONST`, so the
repeated integer-constant move survives and `peep` returns the chain
unchanged — while the float-constant analogue `MOVSD $5.0, X0` twice
is excised to a `NOP` exactly as the spec describes, pinpointing the
broken conjunct. -/
theorem conprop_keeps_second_int_const_move :
    peep c6input = some c6input
    ∧ (c6input.getD 2 default).as = AMOVL
    ∧ (c6input.getD 2 default).pfrom.atype = TYPE_CONST
    ∧ (peep c6finput).map (fun g => (g.getD 2 default).as) = some ANOP := by
  decide

/-- C8 counterexample: `peep` is not idempotent.  On `c8input` the
first run's `subprop` swaps the registers of `MOVSD X1, X0` and turns
`MOVSD $1.0, X1` into a second `MOVSD $1.0, X0`; only the second run's
constant propagation deletes that duplicate, so running `peep` again
changes the chain. -/
theorem peep_not_idempotent :
    (peep c8input).isSome = true ∧ (peep c8input).bind peep ≠ peep c8input := by
  decide

/-! ### Idempotence of `elimshortmov` (claim C8) -/

/-- If two words agree under a mask, they agree under any submask. -/
theorem and_sub_mask (x y m u : Nat) (hmu : m &&& u = u) (h : x &&& m = y &&& m) :
    x &&& u = y &&& u := by
  have h2 := congrArg (· &&& u) h
  simpa [Nat.and_assoc, hmu] using h2

/-- `elimshortmovStep` never runs when every opcode it tests is below 57. -/
theorem elimshortmovStep_default (p : Prog8) (rest : List Prog8) (h : 57 ≤ p.as) :
    elimshortmovStep p rest = p := by
  have c1 : ¬(p.as = AINCB ∨ p.as = AINCW) := by unfold AINCB AINCW; omega
  have c2 : ¬(p.as = ADECB ∨ p.as = ADECW) := by unfold ADECB ADECW; omega
  have c3 : ¬(p.as = ANEGB ∨ p.as = ANEGW) := by unfold ANEGB ANEGW; omega
  have c4 : ¬(p.as = ANOTB ∨ p.as = ANOTW) := by unfold ANOTB ANOTW; omega
  have c5 : ¬(p.as = AMOVB ∨ p.as = AMOVW) := by unfold AMOVB AMOVW; omega
  have c6 : ¬(p.as = AADDB ∨ p.as = AADDW) := by unfold AADDB AADDW; omega
  have c7 : ¬(p.as = ASUBB ∨ p.as = ASUBW) := by unfold ASUBB ASUBW; omega
  have c8 : ¬(p.as = AMULB ∨ p.as = AMULW) := by unfold AMULB AMULW; omega
  have c9 : ¬(p.as = AIMULB ∨ p.as = AIMULW) := by unfold AIMULB AIMULW; omega
  have c10 : ¬(p.as = AANDB ∨ p.as = AANDW) := by unfold AANDB AANDW; omega
  have c11 : ¬(p.as = AORB ∨ p.as = AORW) := by unfold AORB AORW; omega
  have c12 : ¬(p.as = AXORB ∨ p.as = AXORW) := by unfold AXORB AXORW; omega
  have c13 : ¬(p.as = ASHLB ∨ p.as = ASHLW) := by unfold ASHLB ASHLW; omega
  have c14 : ¬(p.as = AMOVB) := by unfold AMOVB; omega
  have c15 : ¬(p.as = AMOVW) := by unfold AMOVW; omega
  simp [elimshortmovStep, c1, c2, c3, c4, c5, c6, c7, c8, c9, c10, c11, c12, c13, c14, c15]

set_option maxHeartbeats 4000000 in
/-- One `elimshortmovStep` preserves the carry flags of the instruction
and is idempotent relative to any tail with the same `needc`. -/
theorem elimshortmovStep_shape (p0 : Prog8) (rest rest' : List Prog8)
    (hnc : needc rest' = needc rest) :
    (proginfo8 (elimshortmovStep p0 rest)).flags &&& (UseCarry ||| SetCarry ||| KillCarry)
      = (proginfo8 p0).flags &&& (UseCarry ||| SetCarry ||| KillCarry)
    ∧ elimshortmovStep (elimshortmovStep p0 rest) rest' = elimshortmovStep p0 rest := by
  obtain ⟨a, f1, t1⟩ := p0
  by_cases hto : regtyp t1
  · by_cases ha : a < 57
    · by_cases hfc : regtyp f1 ∨ f1.atype = TYPE_CONST
      · by_cases hn : needc rest
        · interval_cases a <;>
            (try simp_all [elimshortmovStep, proginfo8,
              ANOP, ALEAL, AMOVB, AMOVW, AMOVL, AMOVSS, AMOVSD, AMOVAPD,
              AMOVBLZX, AMOVWLZX, AMOVBLSX, AMOVWLSX, AADDB, AADDW, AADDL, AADCL,
              ASUBB, ASUBW, ASUBL, AINCB, AINCW, AINCL, ADECB, ADECW, ADECL,
              ANEGB, ANEGW, ANEGL, ANOTB, ANOTW, ANOTL, AMULB, AMULW, AMULL,
              AIMULB, AIMULW, AIMULL, AANDB, AANDW, AANDL, AORB, AORW, AORL,
              AXORB, AXORW, AXORL, ASHLB, ASHLW, ASHLL, AJMP, ARET, ACALL,
              ATEXT, AVARDEF, AVARKILL, ACMPL,
              PI8, RightRdwr, Pseudo, Move, LeftAddr, LeftRead, LeftWrite,
              RightAddr, RightRead, RightWrite, SetCarry, UseCarry, KillCarry,
              ShiftCX, ImulAxDx, Conv, Call, Jump, Break,
              SizeB, SizeW, SizeL, SizeQ, SizeF, SizeD]) <;> (try decide)
        · interval_cases a <;>
            (try simp_all [elimshortmovStep, proginfo8,
              ANOP, ALEAL, AMOVB, AMOVW, AMOVL, AMOVSS, AMOVSD, AMOVAPD,
              AMOVBLZX, AMOVWLZX, AMOVBLSX, AMOVWLSX, AADDB, AADDW, AADDL, AADCL,
              ASUBB, ASUBW, ASUBL, AINCB, AINCW, AINCL, ADECB, ADECW, ADECL,
              ANEGB, ANEGW, ANEGL, ANOTB, ANOTW, ANOTL, AMULB, AMULW, AMULL,
              AIMULB, AIMULW, AIMULL, AANDB, AANDW, AANDL, AORB, AORW, AORL,
              AXORB, AXORW, AXORL, ASHLB, ASHLW, ASHLL, AJMP, ARET, ACALL,
              ATEXT, AVARDEF, AVARKILL, ACMPL,
              PI8, RightRdwr, Pseudo, Move, LeftAddr, LeftRead, LeftWrite,
              RightAddr, RightRead, RightWrite, SetCarry, UseCarry, KillCarry,
              ShiftCX, ImulAxDx, Conv, Call, Jump, Break,
              SizeB, SizeW, SizeL, SizeQ, SizeF, SizeD]) <;> (try decide)
      · interval_cases a <;>
          (try simp_all [elimshortmovStep, proginfo8,
            ANOP, ALEAL, AMOVB, AMOVW, AMOVL, AMOVSS, AMOVSD, AMOVAPD,
            AMOVBLZX, AMOVWLZX, AMOVBLSX, AMOVWLSX, AADDB, AADDW, AADDL, AADCL,
            ASUBB, ASUBW, ASUBL, AINCB, AINCW, AINCL, ADECB, ADECW, ADECL,
            ANEGB, ANEGW, ANEGL, ANOTB, ANOTW, ANOTL, AMULB, AMULW, AMULL,
            AIMULB, AIMULW, AIMULL, AANDB, AANDW, AANDL, AORB, AORW, AORL,
            AXORB, AXORW, AXORL, ASHLB, ASHLW, ASHLL, AJMP, ARET, ACALL,
            ATEXT, AVARDEF, AVARKILL, ACMPL,
            PI8, RightRdwr, Pseudo, Move, LeftAddr, LeftRead, LeftWrite,
            RightAddr, RightRead, RightWrite, SetCarry, UseCarry, KillCarry,
            ShiftCX, ImulAxDx, Conv, Call, Jump, Break,
            SizeB, SizeW, SizeL, SizeQ, SizeF, SizeD]) <;> (try decide)
    · have hbig : 57 ≤ (Prog8.mk a f1 t1).as := by simpa using by omega
      rw [elimshortmovStep_default _ rest hbig, elimshortmovStep_default _ rest' hbig]
      exact ⟨rfl, rfl⟩
  · simp [elimshortmovStep, hto]

/-- `elimshortmov` preserves the carry-relevance of every instruction,
hence `needc`. -/
theorem needc_elimshortmov (g : List Prog8) : needc (elimshortmov g) = needc g := by
  induction g with
  | nil => rfl
  | cons p rest ih =>
    have hm := (elimshortmovStep_shape p rest rest rfl).1
    have hU : (proginfo8 (elimshortmovStep p rest)).flags &&& UseCarry
        = (proginfo8 p).flags &&& UseCarry :=
      and_sub_mask _ _ _ _ (by decide) hm
    have hSK : (proginfo8 (elimshortmovStep p rest)).flags &&& (SetCarry ||| KillCarry)
        = (proginfo8 p).flags &&& (SetCarry ||| KillCarry) :=
      and_sub_mask _ _ _ _ (by decide) hm
    show needc (elimshortmovStep p rest :: elimshortmov rest) = _
    simp only [needc]
    rw [hU, hSK, ih]

/-- C8 (amended): `peep` itself is not idempotent
(`peep_not_idempotent` above), but its width-normalization pass
`elimshortmov` is: rerunning it on its own output changes nothing,
because each rewrite leaves an opcode no rule matches and preserves
every instruction's carry behaviour, so the `needc` guards decide the
same way. -/
theorem elimshortmov_idempotent (g : List Prog8) :
    elimshortmov (elimshortmov g) = elimshortmov g := by
  induction g with
  | nil => rfl
  | cons p rest ih =>
    show elimshortmovStep (elimshortmovStep p rest) (elimshortmov rest)
        :: elimshortmov (elimshortmov rest) = _
    rw [ih, (elimshortmovStep_shape p rest (elimshortmov rest) (needc_elimshortmov rest)).2]
    rfl

/-! ### The carry-flag guard (claim C7) -/

/-- `needc` holds exactly when some instruction uses the carry and no
earlier instruction sets or kills it. -/
theorem needc_iff (ps : List Prog8) :
    needc ps = true ↔ ∃ k, k < ps.length ∧
      (proginfo8 (ps.getD k default)).flags &&& UseCarry ≠ 0 ∧
      ∀ j, j < k → (proginfo8 (ps.getD j default)).flags &&& (SetCarry ||| KillCarry) = 0 := by
  induction ps with
  | nil => simp [needc]
  | cons p rest ih =>
    by_cases hU : (proginfo8 p).flags &&& UseCarry ≠ 0
    · simp only [needc, if_pos hU]
      constructor
      · intro _
        exact ⟨0, by simp, by simpa using hU, fun j hj => absurd hj (Nat.not_lt_zero j)⟩
      · intro _; trivial
    · by_cases hSK : (proginfo8 p).flags &&& (SetCarry ||| KillCarry) ≠ 0
      · simp only [needc, if_neg hU, if_pos hSK]
        constructor
        · intro hfalse; exact absurd hfalse (by simp)
        · rintro ⟨k, hk, hUk, hprev⟩
          match k with
          | 0 => exact absurd (by simpa using hUk) hU
          | k + 1 => exact absurd (by simpa using hprev 0 (Nat.succ_pos k)) hSK
      · push_neg at hSK
        simp only [needc, if_neg hU, if_neg (by simp [hSK] : ¬ (proginfo8 p).flags &&& (SetCarry ||| KillCarry) ≠ 0)]
        rw [ih]
        constructor
        · rintro ⟨k, hk, hUk, hprev⟩
          refine ⟨k + 1, by simpa using hk, by simpa using hUk, ?_⟩
          intro j hj
          match j with
          | 0 => simpa using hSK
          | j + 1 => simpa using hprev j (by omega)
        · rintro ⟨k, hk, hUk, hprev⟩
          match k with
          | 0 => exact absurd (by simpa using hUk) hU
          | k + 1 =>
            refine ⟨k, by simpa using hk, by simpa using hUk, ?_⟩
            intro j hj
            simpa using hprev (j + 1) (by omega)

/-- C7: the carry-flag guard.  (1) `needc ps` holds iff some later
instruction consumes the carry flag before any instruction sets or
kills it; (2) `elimshortmov` leaves a byte/word `ADD`/`SUB` into a
register untouched when `needc` holds on its tail and widens it to the
32-bit form otherwise; (3) the `loop1` `ADD`/`SUB`-to-`INC`/`DEC`
rewrite skips the instruction unchanged whenever `needc` holds after
it. -/
theorem peep_carry_flag_guard (p : Prog8) (ps rest g : List Prog8) (i t fuel : Nat) :
    (needc ps = true ↔ ∃ k, k < ps.length ∧
      (proginfo8 (ps.getD k default)).flags &&& UseCarry ≠ 0 ∧
      ∀ j, j < k → (proginfo8 (ps.getD j default)).flags &&& (SetCarry ||| KillCarry) = 0)
    ∧ (regtyp p.pto = true → (regtyp p.pfrom = true ∨ p.pfrom.atype = TYPE_CONST) →
       (p.as = AADDB ∨ p.as = AADDW ∨ p.as = ASUBB ∨ p.as = ASUBW) →
       (needc rest = true → elimshortmovStep p rest = p)
       ∧ (needc rest = false →
           elimshortmovStep p rest =
             { p with as := if p.as = AADDB ∨ p.as = AADDW then AADDL else ASUBL }))
    ∧ ((g.getD i default).as = AADDL ∨ (g.getD i default).as = AADDW ∨
       (g.getD i default).as = ASUBL ∨ (g.getD i default).as = ASUBW →
       needc (g.drop (i + 1)) = true → i < g.length →
       loop1Body (fuel + 1) i t g = loop1Body fuel (i + 1) t g) := by
  refine ⟨needc_iff ps, ?_, ?_⟩
  · intro hto hfc hop
    constructor
    · intro hn
      rcases hop with h | h | h | h <;>
        simp [elimshortmovStep, hto, hfc, hn, h,
          AINCB, AINCW, ADECB, ADECW, ANEGB, ANEGW, ANOTB, ANOTW,
          AMOVB, AMOVW, AADDB, AADDW, ASUBB, ASUBW, AMULB, AMULW,
          AIMULB, AIMULW, AANDB, AANDW, AORB, AORW, AXORB, AXORW, ASHLB, ASHLW]
    · intro hn
      rcases hop with h | h | h | h <;>
        simp [elimshortmovStep, hto, hfc, hn, h,
          AINCB, AINCW, ADECB, ADECW, ANEGB, ANEGW, ANOTB, ANOTW,
          AMOVB, AMOVW, AADDB, AADDW, ASUBB, ASUBW, AMULB, AMULW,
          AIMULB, AIMULW, AANDB, AANDW, AORB, AORW, AXORB, AXORW, ASHLB, ASHLW,
          AADDL, ASUBL]
  · intro hop hn hlen
    have hge : ¬ i ≥ g.length := by omega
    rcases hop with h | h | h | h <;>
      simp [loop1Body, hge, h, hn, -List.getD_eq_getElem?_getD,
        AMOVL, AMOVSS, AMOVSD, AMOVBLZX, AMOVWLZX, AMOVBLSX, AMOVWLSX,
        AADDL, AADDW, ASUBL, ASUBW]

theorem peep_carry_flag_guard_witness :
    elimshortmovStep c7addb c7rest = c7addb
    ∧ elimshortmovStep c7addb [] = { c7addb with as := AADDL }
    ∧ loop1Body 6 0 0 c7g = loop1Body 5 1 0 c7g :=
  ⟨((peep_carry_flag_guard c7addb [] c7rest [] 0 0 0).2.1 (by decide) (by decide)
      (by decide)).1 (by decide),
   ((peep_carry_flag_guard c7addb [] [] [] 0 0 0).2.1 (by decide) (by decide)
      (by decide)).2 (by decide),
   (peep_carry_flag_guard c7addb [] [] c7g 0 0 5).2.2 (by decide) (by decide) (by decide)⟩

/-! ### Termination of the `copyprop` query (claim C9) -/

/-- Marking an unvisited in-range node strictly decreases `unmarked`. -/
theorem unmarked_set_true_lt (l : List Bool) :
    ∀ i, i < l.length → l.getD i false = false → unmarked (l.set i true) < unmarked l := by
  induction l with
  | nil => intro i hi; exact absurd hi (by simp)
  | cons b tl ih =>
    intro i hi hf
    match i with
    | 0 =>
      have hb : b = false := by simpa using hf
      subst hb
      simp [unmarked, List.countP_cons]
    | i + 1 =>
      have h1 := ih i (by simpa using hi) (by simpa using hf)
      have hset : (b :: tl).set (i + 1) true = b :: tl.set i true := rfl
      rw [hset]
      simp only [unmarked, List.countP_cons]
      unfold unmarked at h1
      omega

/-- Marking never increases `unmarked`. -/
theorem unmarked_set_true_le (l : List Bool) :
    ∀ i, unmarked (l.set i true) ≤ unmarked l := by
  induction l with
  | nil => intro i; simp [unmarked]
  | cons b tl ih =>
    intro i
    match i with
    | 0 =>
      cases b <;> simp [unmarked, List.countP_cons]
    | i + 1 =>
      have h1 := ih i
      have hset : (b :: tl).set (i + 1) true = b :: tl.set i true := rfl
      rw [hset]
      simp only [unmarked, List.countP_cons]
      unfold unmarked at h1
      omega

set_option maxHeartbeats 4000000 in
/-- The marks of a query only grow: any `copy1G` result preserves the
marks-list length and never increases the unvisited count. -/
theorem copy1G_state (nodes : List FNode) (v1 v2 : Addr8) :
    ∀ fuel (mode : Bool) (i : Nat) (f : Bool) (st : CopySt) (b : Bool) (st2 : CopySt),
      copy1G nodes v1 v2 fuel mode i f st = some (some (b, st2)) →
      st2.marks.length = st.marks.length ∧ unmarked st2.marks ≤ unmarked st.marks := by
  intro fuel
  induction fuel with
  | zero =>
    intro mode i f st b st2 h
    exact absurd h (by simp [copy1G])
  | succ fuel ih =>
    intro mode i f st b st2 h
    cases mode with
    | true =>
      simp only [copy1G] at h
      by_cases hm : st.marks.getD i false = true
      · rw [if_pos hm] at h
        simp only [Option.some.injEq, Prod.mk.injEq] at h
        rcases h with ⟨-, hst⟩
        subst hst
        exact ⟨rfl, le_rfl⟩
      · rw [if_neg hm] at h
        have h2 := ih false i f _ b st2 h
        constructor
        · rw [h2.1]; simp
        · exact le_trans h2.2 (unmarked_set_true_le _ _)
    | false =>
      simp only [copy1G] at h
      by_cases hi : i ≥ nodes.length
      · rw [if_pos hi] at h
        simp only [Option.some.injEq, Prod.mk.injEq] at h
        rcases h with ⟨-, hst⟩
        subst hst
        exact ⟨rfl, le_rfl⟩
      · rw [if_neg hi] at h
        repeat' split at h
        all_goals first
          | contradiction
          | exact Option.noConfusion h
          | exact Option.noConfusion (Option.some.inj h)
          | (simp only [Option.some.injEq, Prod.mk.injEq] at h
             rcases h with ⟨-, hst⟩
             subst hst
             exact ⟨rfl, le_rfl⟩)
          | exact ih _ _ _ _ _ _ h
          | (have hb12 := ih _ _ _ _ _ _ h
             refine ⟨by rw [hb12.1], ?_⟩
             simpa using hb12.2)
          | (rename_i hdesc a1 a2 a3 a4
             have hdup : copy1G nodes v1 v2 fuel true _ _ _ = some (some (_, _)) := hdesc
             have hb12 := ih _ _ _ _ _ _ h
             have ha12 := ih _ _ _ _ _ _ hdup
             refine ⟨by rw [hb12.1, ha12.1], ?_⟩
             exact le_trans hb12.2 (by simpa using ha12.2))
          | (rename_i hdesc a1 a2 a3 a4 a5
             have hdup : copy1G nodes v1 v2 fuel true _ _ _ = some (some (_, _)) := hdesc
             have hb12 := ih _ _ _ _ _ _ h
             have ha12 := ih _ _ _ _ _ _ hdup
             refine ⟨by rw [hb12.1, ha12.1], ?_⟩
             exact le_trans hb12.2 (by simpa using ha12.2))
          | (rename_i hdesc a1 a2 a3 a4 a5 a6
             have hdup : copy1G nodes v1 v2 fuel true _ _ _ = some (some (_, _)) := hdesc
             have hb12 := ih _ _ _ _ _ _ h
             have ha12 := ih _ _ _ _ _ _ hdup
             refine ⟨by rw [hb12.1, ha12.1], ?_⟩
             exact le_trans hb12.2 (by simpa using ha12.2))
          | (rename_i hdesc a1 a2 a3 a4 a5 a6 a7
             have hdup : copy1G nodes v1 v2 fuel true _ _ _ = some (some (_, _)) := hdesc
             have hb12 := ih _ _ _ _ _ _ h
             have ha12 := ih _ _ _ _ _ _ hdup
             refine ⟨by rw [hb12.1, ha12.1], ?_⟩
             exact le_trans hb12.2 (by simpa using ha12.2))
          | (rename_i hdesc a1 a2
             have hdup : copy1G nodes v1 v2 fuel true _ _ _ = some (some (_, _)) := hdesc
             have ha12 := ih _ _ _ _ _ _ hdup
             simp only [Option.some.injEq, Prod.mk.injEq] at h
             rcases h with ⟨-, hst⟩
             subst hst
             refine ⟨by rw [ha12.1], ?_⟩
             simpa using ha12.2)
          | (rename_i hdesc a1 a2 a3
             have hdup : copy1G nodes v1 v2 fuel true _ _ _ = some (some (_, _)) := hdesc
             have ha12 := ih _ _ _ _ _ _ hdup
             simp only [Option.some.injEq, Prod.mk.injEq] at h
             rcases h with ⟨-, hst⟩
             subst hst
             refine ⟨by rw [ha12.1], ?_⟩
             simpa using ha12.2)
          | (rename_i hdesc a1 a2 a3 a4
             have hdup : copy1G nodes v1 v2 fuel true _ _ _ = some (some (_, _)) := hdesc
             have ha12 := ih _ _ _ _ _ _ hdup
             simp only [Option.some.injEq, Prod.mk.injEq] at h
             rcases h with ⟨-, hst⟩
             subst hst
             refine ⟨by rw [ha12.1], ?_⟩
             simpa using ha12.2)
          | (rename_i hdesc a1 a2 a3 a4 a5
             have hdup : copy1G nodes v1 v2 fuel true _ _ _ = some (some (_, _)) := hdesc
             have ha12 := ih _ _ _ _ _ _ hdup
             simp only [Option.some.injEq, Prod.mk.injEq] at h
             rcases h with ⟨-, hst⟩
             subst hst
             refine ⟨by rw [ha12.1], ?_⟩
             simpa using ha12.2)
          | (rename_i hdesc a1 a2 a3 a4 a5 a6
             have hdup : copy1G nodes v1 v2 fuel true _ _ _ = some (some (_, _)) := hdesc
             have ha12 := ih _ _ _ _ _ _ hdup
             simp only [Option.some.injEq, Prod.mk.injEq] at h
             rcases h with ⟨-, hst⟩
             subst hst
             refine ⟨by rw [ha12.1], ?_⟩
             simpa using ha12.2)
          | (rename_i hdesc a1 a2 a3 a4 a5 a6 a7
             have hdup : copy1G nodes v1 v2 fuel true _ _ _ = some (some (_, _)) := hdesc
             have ha12 := ih _ _ _ _ _ _ hdup
             simp only [Option.some.injEq, Prod.mk.injEq] at h
             rcases h with ⟨-, hst⟩
             subst hst
             refine ⟨by rw [ha12.1], ?_⟩
             simpa using ha12.2)
          | (rename_i hdesc hok
             have hdup : copy1G nodes v1 v2 fuel true _ _ _ = some (some (_, _)) := hdesc
             have ha12 := ih _ _ _ _ _ _ hdup
             simp only [Option.some.injEq, Prod.mk.injEq] at h
             rcases h with ⟨-, hst⟩
             subst hst
             refine ⟨by rw [ha12.1], ?_⟩
             simpa using ha12.2)

set_option maxHeartbeats 1000000 in
theorem copy1G_mono (nodes : List FNode) (v1 v2 : Addr8) :
    ∀ (fuel : Nat) (mode : Bool) (i : Nat) (f : Bool) (st : CopySt)
      (r : Option (Bool × CopySt)),
      copy1G nodes v1 v2 fuel mode i f st = some r →
      copy1G nodes v1 v2 (fuel + 1) mode i f st = some r := by
  intro fuel
  induction fuel with
  | zero =>
    intro mode i f st r h
    exact absurd h (by simp [copy1G])
  | succ fuel ih =>
    intro mode i f st r h
    cases mode with
    | true =>
      simp only [copy1G] at h
      conv_lhs => rw [copy1G]
      by_cases hm : st.marks.getD i false = true
      · rw [if_pos hm] at h ⊢
        exact h
      · rw [if_neg hm] at h ⊢
        exact ih _ _ _ _ _ h
    | false =>
      simp only [copy1G] at h
      conv_lhs => rw [copy1G]
      by_cases hi : i ≥ nodes.length
      · rw [if_pos hi] at h ⊢
        exact h
      · rw [if_neg hi] at h ⊢
        have htail : ∀ (pp : Prog8) (stt : CopySt) (ff : Bool) (rr : Option (Bool × CopySt)),
            (match (if ¬ff = true then copyu pp v1 none else some (0, pp)) with
             | none => some none
             | some (t3, _) =>
               match (nodes.getD i default).s2 with
               | some k =>
                 match copy1G nodes v1 v2 fuel true k
                     (if ¬ff = true ∧ (t3 = 2 ∨ t3 = 3 ∨ t3 = 4) then true else ff) stt with
                 | none => none
                 | some none => some none
                 | some (some (ok, st2x)) =>
                   if ok then
                     match s1succ nodes i with
                     | none => some (some (true, st2x))
                     | some jn =>
                       copy1G nodes v1 v2 fuel false jn
                         (if ¬ff = true ∧ (t3 = 2 ∨ t3 = 3 ∨ t3 = 4) then true else ff) st2x
                   else some (some (false, st2x))
               | none =>
                 match s1succ nodes i with
                 | none => some (some (true, stt))
                 | some jn =>
                   copy1G nodes v1 v2 fuel false jn
                     (if ¬ff = true ∧ (t3 = 2 ∨ t3 = 3 ∨ t3 = 4) then true else ff) stt)
              = some rr →
            (match (if ¬ff = true then copyu pp v1 none else some (0, pp)) with
             | none => some none
             | some (t3, _) =>
               match (nodes.getD i default).s2 with
               | some k =>
                 match copy1G nodes v1 v2 (fuel + 1) true k
                     (if ¬ff = true ∧ (t3 = 2 ∨ t3 = 3 ∨ t3 = 4) then true else ff) stt with
                 | none => none
                 | some none => some none
                 | some (some (ok, st2x)) =>
                   if ok then
                     match s1succ nodes i with
                     | none => some (some (true, st2x))
                     | some jn =>
                       copy1G nodes v1 v2 (fuel + 1) false jn
                         (if ¬ff = true ∧ (t3 = 2 ∨ t3 = 3 ∨ t3 = 4) then true else ff) st2x
                   else some (some (false, st2x))
               | none =>
                 match s1succ nodes i with
                 | none => some (some (true, stt))
                 | some jn =>
                   copy1G nodes v1 v2 (fuel + 1) false jn
                     (if ¬ff = true ∧ (t3 = 2 ∨ t3 = 3 ∨ t3 = 4) then true else ff) stt)
              = some rr := by
          intro pp stt ff rr htl
          rcases hc3 : (if ¬ff = true then copyu pp v1 none else some (0, pp)) with _ | ⟨t3, q3⟩
          · simp only [hc3] at htl ⊢
            exact htl
          · simp only [hc3] at htl ⊢
            rcases hs2 : (nodes.getD i default).s2 with _ | k
            · simp only [hs2] at htl ⊢
              rcases hs1 : s1succ nodes i with _ | jn
              · simp only [hs1] at htl ⊢
                exact htl
              · simp only [hs1] at htl ⊢
                exact ih _ _ _ _ _ htl
            · simp only [hs2] at htl ⊢
              rcases hD : copy1G nodes v1 v2 fuel true k
                  (if ¬ff = true ∧ (t3 = 2 ∨ t3 = 3 ∨ t3 = 4) then true else ff) stt
                with _ | (_ | ⟨ok, st2x⟩)
              · simp only [hD] at htl
                exact absurd htl (by simp)
              · have hD1 := ih _ _ _ _ _ hD
                simp only [hD] at htl
                simp only [hD1]
                exact htl
              · have hD1 := ih _ _ _ _ _ hD
                simp only [hD] at htl
                simp only [hD1]
                cases ok
                · rw [if_neg (by simp)] at htl ⊢
                  exact htl
                · rw [if_pos rfl] at htl ⊢
                  rcases hs1 : s1succ nodes i with _ | jn
                  · simp only [hs1] at htl ⊢
                    exact htl
                  · simp only [hs1] at htl ⊢
                    exact ih _ _ _ _ _ htl
        rcases hc0 : copyu (st.progs.getD i default) v2 none with _ | ⟨t, q0⟩
        · simp only [hc0] at h ⊢
          exact h
        · simp only [hc0] at h ⊢
          by_cases ht2 : t = 2
          · rw [if_pos ht2] at h ⊢
            exact h
          · rw [if_neg ht2] at h ⊢
            by_cases ht3 : t = 3
            · rw [if_pos ht3] at h ⊢
              exact h
            · rw [if_neg ht3] at h ⊢
              by_cases ht14 : t = 1 ∨ t = 4
              · rw [if_pos ht14] at h ⊢
                by_cases hf1 : (if ¬f = true ∧ uniqpNone nodes i = true then true else f) = true
                · rw [if_pos hf1] at h ⊢
                  exact h
                · rw [if_neg hf1] at h ⊢
                  rcases hc1 : copyu (st.progs.getD i default) v2 (some v1) with _ | ⟨t2, p1⟩
                  · simp only [hc1] at h ⊢
                    exact h
                  · simp only [hc1] at h ⊢
                    by_cases ht20 : t2 ≠ 0
                    · rw [if_pos ht20] at h ⊢
                      exact h
                    · rw [if_neg ht20] at h ⊢
                      by_cases ht4 : t = 4
                      · rw [if_pos ht4] at h ⊢
                        exact h
                      · rw [if_neg ht4] at h ⊢
                        exact htail _ _ _ _ h
              · rw [if_neg ht14] at h ⊢
                exact htail _ _ _ _ h


/-- The walk phase past the end of the node list returns immediately. -/
theorem copy1G_walk_oob (nodes : List FNode) (v1 v2 : Addr8) (fuel i : Nat) (f : Bool)
    (st : CopySt) (hio : i ≥ nodes.length) :
    copy1G nodes v1 v2 (fuel + 1) false i f st = some (some (true, st)) := by
  conv_lhs => rw [copy1G]
  rw [if_pos hio]

/-- An in-range unvisited node makes `unmarked` positive. -/
theorem unmarked_pos (l : List Bool) (i : Nat) (h : i < l.length)
    (hf : l.getD i false = false) : 0 < unmarked l := by
  unfold unmarked
  rw [List.getD_eq_getElem l false h] at hf
  exact List.countP_pos.mpr ⟨l[i], List.getElem_mem h, by simp [hf]⟩

/-- Fuel can only help: any result at `fuel1` persists at larger fuel. -/
theorem copy1G_mono_le (nodes : List FNode) (v1 v2 : Addr8) :
    ∀ (fuel1 fuel2 : Nat) (mode : Bool) (i : Nat) (f : Bool) (st : CopySt)
      (r : Option (Bool × CopySt)),
      fuel1 ≤ fuel2 →
      copy1G nodes v1 v2 fuel1 mode i f st = some r →
      copy1G nodes v1 v2 fuel2 mode i f st = some r := by
  intro fuel1 fuel2 mode i f st r hle h
  induction fuel2 with
  | zero =>
    have h0 : fuel1 = 0 := by omega
    subst h0
    exact h
  | succ n ihn =>
    rcases Nat.eq_or_lt_of_le hle with rfl | hlt
    · exact h
    · exact copy1G_mono nodes v1 v2 n mode i f st r (ihn (by omega))

set_option maxHeartbeats 1000000 in
/-- With at most `mb` unvisited nodes and walk fuel for position `j`,
the walk phase never exhausts its fuel (given that entries with bound
`mb` never do). -/
theorem copy1G_walk_enough (nodes : List FNode) (v1 v2 : Addr8) (mb : Nat)
    (hE : ∀ (i : Nat) (f : Bool) (st : CopySt) (fuel : Nat),
      nodes.length ≤ st.marks.length → unmarked st.marks ≤ mb →
      entryNeed nodes.length mb ≤ fuel →
      copy1G nodes v1 v2 fuel true i f st ≠ none) :
    ∀ (c j : Nat) (f : Bool) (st : CopySt) (fuel : Nat),
      nodes.length ≤ j + c →
      nodes.length ≤ st.marks.length →
      unmarked st.marks ≤ mb →
      walkNeed nodes.length mb j ≤ fuel →
      copy1G nodes v1 v2 fuel false j f st ≠ none := by
  intro c
  induction c with
  | zero =>
    intro j f st fuel hjc hlen humc hfuel hcon
    obtain ⟨f2, rfl⟩ : ∃ k, fuel = k + 1 := ⟨fuel - 1, by unfold walkNeed at hfuel; omega⟩
    rw [copy1G_walk_oob nodes v1 v2 f2 j f st (by omega)] at hcon
    exact Option.noConfusion hcon
  | succ c ihc =>
    intro j f st fuel hjc hlen humc hfuel hcon
    by_cases hio : j ≥ nodes.length
    · obtain ⟨f2, rfl⟩ : ∃ k, fuel = k + 1 := ⟨fuel - 1, by unfold walkNeed at hfuel; omega⟩
      rw [copy1G_walk_oob nodes v1 v2 f2 j f st hio] at hcon
      exact Option.noConfusion hcon
    · obtain ⟨f2, rfl⟩ : ∃ k, fuel = k + 1 := ⟨fuel - 1, by unfold walkNeed at hfuel; omega⟩
      have hjlt : j < nodes.length := by omega
      have hfuel2 : walkNeed nodes.length mb j ≤ f2 + 1 := hfuel
      rw [copy1G] at hcon
      rw [if_neg hio] at hcon
      have htail : ∀ (pp : Prog8) (stt : CopySt) (ff : Bool),
          nodes.length ≤ stt.marks.length → unmarked stt.marks ≤ mb →
          (match (if ¬ff = true then copyu pp v1 none else some (0, pp)) with
           | none => some none
           | some (t3, _) =>
             match (nodes.getD j default).s2 with
             | some k =>
               match copy1G nodes v1 v2 f2 true k
                   (if ¬ff = true ∧ (t3 = 2 ∨ t3 = 3 ∨ t3 = 4) then true else ff) stt with
               | none => none
               | some none => some none
               | some (some (ok, st2x)) =>
                 if ok then
                   match s1succ nodes j with
                   | none => some (some (true, st2x))
                   | some jn =>
                     copy1G nodes v1 v2 f2 false jn
                       (if ¬ff = true ∧ (t3 = 2 ∨ t3 = 3 ∨ t3 = 4) then true else ff) st2x
                 else some (some (false, st2x))
             | none =>
               match s1succ nodes j with
               | none => some (some (true, stt))
               | some jn =>
                 copy1G nodes v1 v2 f2 false jn
                   (if ¬ff = true ∧ (t3 = 2 ∨ t3 = 3 ∨ t3 = 4) then true else ff) stt)
            ≠ none := by
        intro pp stt ff hslen hsumc hcont
        rcases hc3 : (if ¬ff = true then copyu pp v1 none else some (0, pp)) with _ | ⟨t3, q3⟩
        · simp only [hc3] at hcont
          exact Option.noConfusion hcont
        · simp only [hc3] at hcont
          rcases hs2 : (nodes.getD j default).s2 with _ | k
          · simp only [hs2] at hcont
            rcases hs1 : s1succ nodes j with _ | jn
            · simp only [hs1] at hcont
              exact Option.noConfusion hcont
            · simp only [hs1] at hcont
              have hjn : jn = j + 1 := by
                unfold s1succ at hs1
                split at hs1 <;> simp_all
              subst hjn
              exact ihc (j + 1) _ stt f2 (by omega) hslen hsumc
                (by unfold walkNeed at hfuel2 ⊢; omega) hcont
          · simp only [hs2] at hcont
            rcases hD : copy1G nodes v1 v2 f2 true k
                (if ¬ff = true ∧ (t3 = 2 ∨ t3 = 3 ∨ t3 = 4) then true else ff) stt
              with _ | (_ | ⟨ok, st2x⟩)
            · exact hE k _ stt f2 hslen hsumc
                (by unfold entryNeed; unfold walkNeed at hfuel2; omega) hD
            · simp only [hD] at hcont
              exact Option.noConfusion hcont
            · obtain ⟨hl2, hu2⟩ := copy1G_state nodes v1 v2 f2 true k _ stt ok st2x hD
              simp only [hD] at hcont
              cases ok
              · rw [if_neg (by simp)] at hcont
                exact Option.noConfusion hcont
              · rw [if_pos rfl] at hcont
                rcases hs1 : s1succ nodes j with _ | jn
                · simp only [hs1] at hcont
                  exact Option.noConfusion hcont
                · simp only [hs1] at hcont
                  have hjn : jn = j + 1 := by
                    unfold s1succ at hs1
                    split at hs1 <;> simp_all
                  subst hjn
                  exact ihc (j + 1) _ st2x f2 (by omega)
                    (by rw [hl2]; exact hslen) (le_trans hu2 hsumc)
                    (by unfold walkNeed at hfuel2 ⊢; omega) hcont
      rcases hc0 : copyu (st.progs.getD j default) v2 none with _ | ⟨t, q0⟩
      · simp only [hc0] at hcon
        exact Option.noConfusion hcon
      · simp only [hc0] at hcon
        by_cases ht2 : t = 2
        · rw [if_pos ht2] at hcon
          exact Option.noConfusion hcon
        · rw [if_neg ht2] at hcon
          by_cases ht3 : t = 3
          · rw [if_pos ht3] at hcon
            exact Option.noConfusion hcon
          · rw [if_neg ht3] at hcon
            by_cases ht14 : t = 1 ∨ t = 4
            · rw [if_pos ht14] at hcon
              by_cases hf1 : (if ¬f = true ∧ uniqpNone nodes j = true then true else f) = true
              · rw [if_pos hf1] at hcon
                exact Option.noConfusion hcon
              · rw [if_neg hf1] at hcon
                rcases hc1 : copyu (st.progs.getD j default) v2 (some v1) with _ | ⟨t2, p1⟩
                · simp only [hc1] at hcon
                  exact Option.noConfusion hcon
                · simp only [hc1] at hcon
                  by_cases ht20 : t2 ≠ 0
                  · rw [if_pos ht20] at hcon
                    exact Option.noConfusion hcon
                  · rw [if_neg ht20] at hcon
                    by_cases ht4 : t = 4
                    · rw [if_pos ht4] at hcon
                      exact Option.noConfusion hcon
                    · rw [if_neg ht4] at hcon
                      exact htail p1 { st with progs := st.progs.set j p1 } _ hlen humc hcon
            · rw [if_neg ht14] at hcon
              exact htail (st.progs.getD j default) st _ hlen humc hcon

/-- With at most `m` unvisited nodes and entry fuel for bound `m`, a
`copy1G` entry never exhausts its fuel. -/
theorem copy1G_enough (nodes : List FNode) (v1 v2 : Addr8) :
    ∀ (m : Nat) (i : Nat) (f : Bool) (st : CopySt) (fuel : Nat),
      nodes.length ≤ st.marks.length → unmarked st.marks ≤ m →
      entryNeed nodes.length m ≤ fuel →
      copy1G nodes v1 v2 fuel true i f st ≠ none := by
  intro m
  induction m with
  | zero =>
    intro i f st fuel hlen humc hfuel hcon
    obtain ⟨f2, rfl⟩ : ∃ k, fuel = k + 2 := ⟨fuel - 2, by unfold entryNeed at hfuel; omega⟩
    rw [copy1G] at hcon
    by_cases hm : st.marks.getD i false = true
    · rw [if_pos hm] at hcon
      exact Option.noConfusion hcon
    · rw [if_neg hm] at hcon
      by_cases hin : i < st.marks.length
      · have := unmarked_pos st.marks i hin (by simpa using hm)
        omega
      · rw [copy1G_walk_oob nodes v1 v2 f2 i f _ (by omega)] at hcon
        exact Option.noConfusion hcon
  | succ m ihm =>
    intro i f st fuel hlen humc hfuel hcon
    obtain ⟨f2, rfl⟩ : ∃ k, fuel = k + 2 := ⟨fuel - 2, by unfold entryNeed at hfuel; omega⟩
    rw [copy1G] at hcon
    by_cases hm : st.marks.getD i false = true
    · rw [if_pos hm] at hcon
      exact Option.noConfusion hcon
    · rw [if_neg hm] at hcon
      by_cases hio : i ≥ nodes.length
      · rw [copy1G_walk_oob nodes v1 v2 f2 i f _ hio] at hcon
        exact Option.noConfusion hcon
      · have hin : i < st.marks.length := by omega
        have hlt := unmarked_set_true_lt st.marks i hin (by simpa using hm)
        exact copy1G_walk_enough nodes v1 v2 m ihm nodes.length i f
          { st with marks := st.marks.set i true } (f2 + 1)
          (by omega) (by simpa using hlen) (by simp only; omega)
          (by
            unfold entryNeed at hfuel
            unfold walkNeed
            have hexp : (m + 1) * (nodes.length + 3)
                = m * (nodes.length + 3) + (nodes.length + 3) := by ring
            omega) hcon

/-- C9: within one `copyprop` query, a node whose `active` mark is
already of the current generation returns immediately with the state
untouched (so `copy1` descends into each node at most once), and with
fuel `entryNeed` — a function of the node count and the number of
unvisited nodes only — the query completes: the result is never the
fuel-exhaustion marker and is independent of any larger fuel, on every
flow graph including ones with `s2` cycles. -/
theorem copyprop_query_visits_once_and_terminates :
    ∀ (nodes : List FNode) (v1 v2 : Addr8) (st : CopySt) (i : Nat) (f : Bool),
      (st.marks.getD i false = true →
        ∀ fuel, copy1G nodes v1 v2 (fuel + 1) true i f st = some (some (true, st)))
      ∧ (nodes.length ≤ st.marks.length →
         ∀ fuel, entryNeed nodes.length (unmarked st.marks) ≤ fuel →
           copy1G nodes v1 v2 fuel true i f st ≠ none
           ∧ copy1G nodes v1 v2 fuel true i f st
             = copy1G nodes v1 v2 (entryNeed nodes.length (unmarked st.marks)) true i f st) := by
  intro nodes v1 v2 st i f
  constructor
  · intro hm fuel
    conv_lhs => rw [copy1G]
    rw [if_pos hm]
  · intro hlen fuel hfuel
    have hne := copy1G_enough nodes v1 v2 (unmarked st.marks) i f st
      (entryNeed nodes.length (unmarked st.marks)) hlen le_rfl le_rfl
    obtain ⟨r, hr⟩ : ∃ r, copy1G nodes v1 v2
        (entryNeed nodes.length (unmarked st.marks)) true i f st = some r := by
      rcases hcase : copy1G nodes v1 v2
          (entryNeed nodes.length (unmarked st.marks)) true i f st with _ | r
      · exact absurd hcase hne
      · exact ⟨r, rfl⟩
    have h2 := copy1G_mono_le nodes v1 v2 _ fuel true i f st r hfuel hr
    constructor
    · rw [h2]
      simp
    · rw [h2, hr]

theorem copyprop_query_visits_once_and_terminates_witness :
    copy1G c9nodes c9v1 c9v2 6 true 0 false c9stMarked = some (some (true, c9stMarked))
    ∧ copy1G c9nodes c9v1 c9v2 40 true 0 false c9st ≠ none
    ∧ copy1G c9nodes c9v1 c9v2 40 true 0 false c9st
      = copy1G c9nodes c9v1 c9v2 (entryNeed 2 2) true 0 false c9st :=
  ⟨(copyprop_query_visits_once_and_terminates c9nodes c9v1 c9v2 c9stMarked 0 false).1
      (by decide) 5,
   ((copyprop_query_visits_once_and_terminates c9nodes c9v1 c9v2 c9st 0 false).2
      (by decide) 40 (by decide)).1,
   ((copyprop_query_visits_once_and_terminates c9nodes c9v1 c9v2 c9st 0 false).2
      (by decide) 40 (by decide)).2⟩
